import Mathlib

/-!
Verification of the `mot` motion codec (read / write / qualify / unqualify).

A shallow embedding of the Rust sources:
  * `src/read/util.rs` — bounds-checked primitive readers and parser combinators,
  * `src/read.rs`      — header table, set-type tags, tracks, bone-id list,
  * `src/write.rs`     — serializer,
  * `src/qualify.rs`   — qualifier (`Motion.from_raw`) and unqualifier (`Motion.to_raw`).

Modelling conventions:
  * A byte buffer `&[u8]` is a `List Nat` whose elements are below 256 (the writer
    only emits reduced bytes; the parsers handle arbitrary `Nat`s the way the Rust
    code handles arbitrary bytes).
  * `f32`/`f64` values are carried as their raw little-endian bit patterns (`Nat`);
    the codec never computes with floats, it only copies their bytes, so the bit
    pattern is an exact model and structural equality is byte equality.
  * A Rust parser `&[u8] -> PResult<O, E>` (returning `(remaining, value)`)
    becomes `List Nat → Except E (List Nat × O)`.
  * A Rust panic (slice index out of bounds) is modelled by an outer `Option`
    layer: `none` means the call panics.
-/

namespace Mot

set_option maxRecDepth 100000

/-- Decidable equality for `Except` (not provided by the core library here),
needed to evaluate parser results on concrete inputs. -/
instance {ε α : Type} [DecidableEq ε] [DecidableEq α] : DecidableEq (Except ε α) := fun
  | .error a, .error b =>
    if h : a = b then .isTrue (by rw [h]) else .isFalse (by intro hc; cases hc; exact h rfl)
  | .error _, .ok _ => .isFalse (by intro hc; cases hc)
  | .ok _, .error _ => .isFalse (by intro hc; cases hc)
  | .ok a, .ok b =>
    if h : a = b then .isTrue (by rw [h]) else .isFalse (by intro hc; cases hc; exact h rfl)

/-- `OutOfRange` from `src/read/util.rs`: wanted `want` bytes, `left` remained. -/
structure OutOfRange where
  want : Nat
  left : Nat
deriving DecidableEq, Repr

/-- `OobPointer` from `src/read/util.rs` (`at` is a Lean keyword, renamed `atPos`). -/
structure OobPointer where
  atPos : Nat
  len : Nat
deriving DecidableEq, Repr

/-- `Infallible` from `core::convert`: an uninhabited error type. -/
inductive Infallible : Type
deriving DecidableEq, Repr

/-- `ReadAtError<E>` from `src/read/util.rs`. -/
inductive ReadAtError (E : Type) : Type where
  | OutOfRange (points : Nat) (ends : Nat)
  | InternalParserError (e : E)
deriving DecidableEq, Repr

/-- `RawMotionError` from `src/read.rs`. -/
inductive RawMotionError : Type where
  | ReadAtError (e : ReadAtError OutOfRange)
  | OutOfRange (e : OutOfRange)
  | OobPointer (e : OobPointer)
  | SetTypeReadError (e : ReadAtError Infallible)
  | FrameReadError (nth : Nat) (off : Nat) (e : OutOfRange)
deriving DecidableEq, Repr

/-- `input_array::<N>` from `src/read/util.rs`: split off the first `N` bytes,
returning `(remaining, first N bytes)`; fails when fewer than `N` bytes remain. -/
def input_array (N : Nat) (i : List Nat) : Except OutOfRange (List Nat × List Nat) :=
  if N ≤ i.length then .ok (i.drop N, i.take N) else .error ⟨N, i.length⟩

/-- Little-endian decoding of a byte list (`from_le_bytes`). -/
def fromLeBytes (bs : List Nat) : Nat :=
  bs.foldr (fun b acc => b + 256 * acc) 0

/-- Big-endian decoding of a byte list (`from_be_bytes`). -/
def fromBeBytes (bs : List Nat) : Nat :=
  bs.foldl (fun acc b => 256 * acc + b) 0

/-- Two's-complement reinterpretation of a `w*8`-bit unsigned value, for the
signed readers (`i16`/`i32`/`i64`). -/
def toSigned (w : Nat) (u : Nat) : Int :=
  if u < 2 ^ (w * 8 - 1) then (u : Int) else (u : Int) - 2 ^ (w * 8)

/-- Generic shape of the `parse_int!` macro instances from `src/read/util.rs`:
read `w` bytes and decode them with `dec`. -/
def intReader (w : Nat) (dec : List Nat → α) (i : List Nat) :
    Except OutOfRange (List Nat × α) :=
  (input_array w i).map (fun p => (p.1, dec p.2))

def le_u16 : List Nat → Except OutOfRange (List Nat × Nat) := intReader 2 fromLeBytes

def be_u16 : List Nat → Except OutOfRange (List Nat × Nat) := intReader 2 fromBeBytes

def le_u32 : List Nat → Except OutOfRange (List Nat × Nat) := intReader 4 fromLeBytes

def be_u32 : List Nat → Except OutOfRange (List Nat × Nat) := intReader 4 fromBeBytes

def le_u64 : List Nat → Except OutOfRange (List Nat × Nat) := intReader 8 fromLeBytes

def be_u64 : List Nat → Except OutOfRange (List Nat × Nat) := intReader 8 fromBeBytes

def le_i16 : List Nat → Except OutOfRange (List Nat × Int) := intReader 2 (toSigned 2 ∘ fromLeBytes)

def be_i16 : List Nat → Except OutOfRange (List Nat × Int) := intReader 2 (toSigned 2 ∘ fromBeBytes)

def le_i32 : List Nat → Except OutOfRange (List Nat × Int) := intReader 4 (toSigned 4 ∘ fromLeBytes)

def be_i32 : List Nat → Except OutOfRange (List Nat × Int) := intReader 4 (toSigned 4 ∘ fromBeBytes)

def le_i64 : List Nat → Except OutOfRange (List Nat × Int) := intReader 8 (toSigned 8 ∘ fromLeBytes)

def be_i64 : List Nat → Except OutOfRange (List Nat × Int) := intReader 8 (toSigned 8 ∘ fromBeBytes)

/-- `le_f32`: the value is the raw 32-bit pattern (see the module comment). -/
def le_f32 : List Nat → Except OutOfRange (List Nat × Nat) := intReader 4 fromLeBytes

def be_f32 : List Nat → Except OutOfRange (List Nat × Nat) := intReader 4 fromBeBytes

def le_f64 : List Nat → Except OutOfRange (List Nat × Nat) := intReader 8 fromLeBytes

def be_f64 : List Nat → Except OutOfRange (List Nat × Nat) := intReader 8 fromBeBytes

/-- `read_at` from `src/read/util.rs`: run `f` on the suffix starting at `off`
(`i0.get(off..)` succeeds exactly when `off ≤ i0.len()`). -/
def read_at (off : Nat) (f : List Nat → Except E (List Nat × O)) (i0 : List Nat) :
    Except (ReadAtError E) (List Nat × O) :=
  if off ≤ i0.length then (f (i0.drop off)).mapError .InternalParserError
  else .error (.OutOfRange off i0.length)

/-- `count` from `src/read/util.rs`: run `f` exactly `n` times, collecting results
in order. -/
def count (n : Nat) (f : List Nat → Except E (List Nat × O)) :
    List Nat → Except E (List Nat × List O) :=
  fun i0 =>
    match n with
    | 0 => .ok (i0, [])
    | n + 1 =>
      match f i0 with
      | .error e => .error e
      | .ok (i1, o) => (count n f i1).map (fun p => (p.1, o :: p.2))

/-- `pair` from `src/read/util.rs`. -/
def pair (f1 : List Nat → Except E (List Nat × O1)) (f2 : List Nat → Except E (List Nat × O2))
    (i0 : List Nat) : Except E (List Nat × (O1 × O2)) :=
  match f1 i0 with
  | .error e => .error e
  | .ok (i, v1) => (f2 i).map (fun p => (p.1, (v1, p.2)))

/-- `map` from `src/read/util.rs`. -/
def pmap (f : List Nat → Except E (List Nat × O)) (m : O → U) (i : List Nat) :
    Except E (List Nat × U) :=
  (f i).map (fun p => (p.1, m p.2))

/-- `SetType` from `src/read.rs`: the 2-bit track type tag. -/
inductive SetType : Type where
  | None
  | Pose
  | CatmullRom
  | Hermite
deriving DecidableEq, Repr

/-- `SetType::from_bits` from `src/read.rs`. -/
def SetType.from_bits : Nat → Option SetType
  | 0 => some .None
  | 1 => some .Pose
  | 2 => some .CatmullRom
  | 3 => some .Hermite
  | _ => none

/-- `SetType::parse` from `src/read.rs`: unpack one byte into 4 tags, least
significant pair first.  The source `unwrap`s `from_bits`; the bit masks keep
every argument below 4, so the `.getD .None` default is unreachable. -/
def SetType.parse (b : Nat) : List SetType :=
  let i0 := (b &&& 0b00000011) >>> 0
  let i1 := (b &&& 0b00001100) >>> 2
  let i2 := (b &&& 0b00110000) >>> 4
  let i3 := (b &&& 0b11000000) >>> 6
  [(from_bits i0).getD .None, (from_bits i1).getD .None,
   (from_bits i2).getD .None, (from_bits i3).getD .None]

/-- `SetType::parse_helper` from `src/read.rs`: `Ok((&i[1..], Self::parse(i[0])))`.
Indexing an empty slice panics in Rust; the panic is the `none` branch.  Its
declared error type is `Infallible`, so it never returns an `Err`. -/
def SetType.parse_helper : List Nat → Option (List Nat × List SetType)
  | [] => none
  | b :: rest => some (rest, SetType.parse b)

/-- `count(cnt1, SetType::parse_helper)`: the generic `count` combinator
instantiated at the panicking, infallible parser (so the whole loop either
panics — `none` — or succeeds). -/
def count_parse_helper : Nat → List Nat → Option (List Nat × List (List SetType))
  | 0, i0 => some (i0, [])
  | n + 1, i0 =>
    match SetType.parse_helper i0 with
    | none => none
    | some (i1, o) => (count_parse_helper n i1).map (fun p => (p.1, o :: p.2))

/-- `read_at(offsets.set_types, count(cnt1, SetType::parse_helper))` from
`src/read.rs` line 92: the only `Err` this composition can produce is the
offset check of `read_at` (the inner error type is `Infallible`); a short
region panics inside `parse_helper` instead. -/
def read_set_types (off cnt1 : Nat) (i0 : List Nat) :
    Option (Except (ReadAtError Infallible) (List Nat × List (List SetType))) :=
  if off ≤ i0.length then
    (count_parse_helper cnt1 (i0.drop off)).map .ok
  else
    some (.error (.OutOfRange off i0.length))

/-- `Keyframe<I>` from `src/lib.rs`; `value` and a present `interpolation` are
f32 bit patterns. -/
structure Keyframe (I : Type) where
  frame : Nat
  value : Nat
  interpolation : I
deriving DecidableEq, Repr

/-- `FrameData` from `src/lib.rs` (`Pose` carries an f32 bit pattern). -/
inductive FrameData : Type where
  | None
  | Pose (v : Nat)
  | CatmulRom (ks : List (Keyframe Unit))
  | Hermite (ks : List (Keyframe Nat))
deriving DecidableEq, Repr

/-- `RawMotion` from `src/lib.rs` / `src/read.rs` (with the `frames` field used
by `read.rs`, `write.rs` and `qualify.rs`). -/
structure RawMotion where
  sets : List FrameData
  bones : List Nat
  frames : Nat
deriving DecidableEq, Repr

/-- `Keyframe::parse` (the `Keyframe<()>` impl) from `src/read.rs`: count, frame
indices, skip `i.len() % 4` bytes, values. -/
def Keyframe.parseU (i0 : List Nat) : Except OutOfRange (List Nat × List (Keyframe Unit)) :=
  match le_u16 i0 with
  | .error e => .error e
  | .ok (i, cnt) =>
    match count cnt le_u16 i with
    | .error e => .error e
    | .ok (i, frames) =>
      let i := i.drop (i.length % 4)
      match count cnt le_f32 i with
      | .error e => .error e
      | .ok (i, values) =>
        .ok (i, (frames.zip values).map (fun p => ⟨p.1, p.2, ()⟩))

/-- `Keyframe::<Hermite>::parse` from `src/read.rs`. -/
def Keyframe.parseH (i0 : List Nat) : Except OutOfRange (List Nat × List (Keyframe Nat)) :=
  match le_u16 i0 with
  | .error e => .error e
  | .ok (i, cnt) =>
    match count cnt le_u16 i with
    | .error e => .error e
    | .ok (i, frames) =>
      let i := i.drop (i.length % 4)
      match count cnt (pair le_f32 le_f32) i with
      | .error e => .error e
      | .ok (i, values) =>
        .ok (i, (frames.zip values).map (fun p => ⟨p.1, p.2.1, p.2.2⟩))

/-- `FrameData::parse` from `src/read.rs`. -/
def FrameData.parse (ty : SetType) (i : List Nat) : Except OutOfRange (List Nat × FrameData) :=
  match ty with
  | .None => .ok (i, .None)
  | .Pose => pmap le_f32 FrameData.Pose i
  | .CatmullRom => pmap Keyframe.parseU FrameData.CatmulRom i
  | .Hermite => pmap Keyframe.parseH FrameData.Hermite i

/-- `HeaderOffsets` from `src/read.rs`. -/
structure HeaderOffsets where
  info : Nat
  set_types : Nat
  sets : Nat
  bones : Nat
deriving DecidableEq, Repr

/-- `HeaderOffsets::parse` from `src/read.rs`: four little-endian u32 offsets;
the all-zero record decodes to `none` (the table terminator).  The
`try_into().unwrap()` u32→usize casts cannot fail and are dropped. -/
def HeaderOffsets.parse (i : List Nat) :
    Except OutOfRange (List Nat × Option HeaderOffsets) :=
  match le_u32 i with
  | .error e => .error e
  | .ok (i, info) =>
    match le_u32 i with
    | .error e => .error e
    | .ok (i, set_types) =>
      match le_u32 i with
      | .error e => .error e
      | .ok (i, sets) =>
        match le_u32 i with
        | .error e => .error e
        | .ok (i, bones) =>
          if info = 0 ∧ set_types = 0 ∧ sets = 0 ∧ bones = 0 then .ok (i, none)
          else .ok (i, some ⟨info, set_types, sets, bones⟩)

/-- `many_till_nth(HeaderOffsets::parse, None, 0)` from `src/read.rs` line 75:
collect header records, stopping at (and discarding, since `nth = 0`) the first
all-zero record.  The Rust generic returns the unread original input as the
position, which `RawMotion::read` discards, so only the list is returned; the
`Vec<Option<_>>` elements are all `Some` by construction and the caller's
`unwrap` is folded in.

For structural recursion the loop consumes its 16 bytes in the pattern; in the
first arm `HeaderOffsets.parse` succeeds and leaves exactly `rest`
(`HeaderOffsets.parse_ok_length`), in the second it always fails; the lemma
`many_till_none_headers_eq_source` re-establishes the source's loop equation. -/
def many_till_none_headers : List Nat → Except OutOfRange (List HeaderOffsets)
  | b0 :: b1 :: b2 :: b3 :: b4 :: b5 :: b6 :: b7 ::
    b8 :: b9 :: b10 :: b11 :: b12 :: b13 :: b14 :: b15 :: rest =>
    match HeaderOffsets.parse (b0 :: b1 :: b2 :: b3 :: b4 :: b5 :: b6 :: b7 ::
        b8 :: b9 :: b10 :: b11 :: b12 :: b13 :: b14 :: b15 :: rest) with
    | .error e => .error e
    | .ok (_, none) => .ok []
    | .ok (_, some hd) => (many_till_none_headers rest).map (fun l => hd :: l)
  | i =>
    match HeaderOffsets.parse i with
    | .error e => .error e
    | .ok (_, none) => .ok []
    | .ok (_, some hd) => .ok [hd]

/-- `many_till_nth(le_u16, c, nth)` from `src/read/util.rs`, the loop that reads
the bone-id list (`src/read.rs` line 106 uses `c = 0`, `nth = 1`): keep reading
little-endian u16 values; the first `nth` occurrences of `c` are appended like
any other value, the next occurrence terminates the loop and is discarded.
`occ` is the running `occurance` counter (0 at the top-level call).  As with the
header loop, the discarded position result (the untouched original input) is
omitted. -/
def many_till_nth_u16 (c nth : Nat) : Nat → List Nat → Except OutOfRange (List Nat)
  | _, [] => .error ⟨2, 0⟩
  | _, [_] => .error ⟨2, 1⟩
  | occ, b0 :: b1 :: rest =>
    let r := fromLeBytes [b0, b1]
    if r = c then
      if occ < nth then (many_till_nth_u16 c nth (occ + 1) rest).map (fun l => r :: l)
      else .ok []
    else (many_till_nth_u16 c nth occ rest).map (fun l => r :: l)

/-- The track-reading loop of `RawMotion::parse` (`src/read.rs` lines 94-104):
`total` is `i0.len()` (for the byte offset recorded in `FrameReadError`), `j`
the running `enumerate` index. -/
def parse_sets (total j : Nat) : List SetType → List Nat →
    Except RawMotionError (List Nat × List FrameData)
  | [], i => .ok (i, [])
  | ty :: tys, i =>
    match FrameData.parse ty i with
    | .error e => .error (.FrameReadError j (total - i.length) e)
    | .ok (i1, v) => (parse_sets total (j + 1) tys i1).map (fun p => (p.1, v :: p.2))

/-- `RawMotion::parse` from `src/read.rs`.  The returned position (the suffix
produced by the bone read, unused by `RawMotion::read`) is dropped.  The outer
`Option` is the panic layer: `none` is the `i[0]` panic inside
`SetType::parse_helper` when the set-type region is too short.
`cnt1 = ⌈cnt/4⌉` models `(cnt as f32 / 4.).ceil() as usize`, exact because
`cnt ≤ 0x3FFF` is far below f32's 2^24 integer range. -/
def RawMotion.parse (i0 : List Nat) (offsets : HeaderOffsets) :
    Option (Except RawMotionError RawMotion) :=
  match read_at offsets.info (pair le_u16 le_u16) i0 with
  | .error e => some (.error (.ReadAtError e))
  | .ok (_, (info, frames)) =>
    let cnt := info &&& 0x3FFF
    let cnt1 := (cnt + 3) / 4
    match read_set_types offsets.set_types cnt1 i0 with
    | none => none
    | some (.error e) => some (.error (.SetTypeReadError e))
    | some (.ok (_, set_ty)) =>
      if offsets.sets ≤ i0.length then
        match parse_sets i0.length 0 (set_ty.flatten.take cnt) (i0.drop offsets.sets) with
        | .error e => some (.error e)
        | .ok (_, sets) =>
          match read_at offsets.bones (fun i => (many_till_nth_u16 0 1 0 i).map (fun l => (i, l))) i0 with
          | .error e => some (.error (.ReadAtError e))
          | .ok (_, bones) => some (.ok ⟨sets, bones, frames⟩)
      else some (.error (.OobPointer ⟨offsets.sets, i0.length⟩))

/-- The per-header loop of `RawMotion::read` (`src/read.rs` lines 76-80). -/
def read_motions (i0 : List Nat) : List HeaderOffsets →
    Option (Except RawMotionError (List RawMotion))
  | [] => some (.ok [])
  | h :: hs =>
    match RawMotion.parse i0 h with
    | none => none
    | some (.error e) => some (.error e)
    | some (.ok m) => (read_motions i0 hs).map (fun r => r.map (fun l => m :: l))

/-- `RawMotion::read` from `src/read.rs`. -/
def RawMotion.read (i0 : List Nat) : Option (Except RawMotionError (List RawMotion)) :=
  match many_till_none_headers i0 with
  | .error e => some (.error (.OutOfRange e))
  | .ok headers => read_motions i0 headers

/-! ### Writer (`src/write.rs`)

The Rust writer streams into a seekable cursor.  Functions below return the
emitted byte list; an explicit `pos` argument carries the absolute stream
position wherever the source calls `seek(SeekFrom::Current(0))`. -/

/-- `(x as u16).to_le_bytes()`. -/
def u16_bytes (v : Nat) : List Nat := [v % 256, v / 256 % 256]

/-- `(x as u32).to_le_bytes()` (also f32 bit patterns). -/
def u32_bytes (v : Nat) : List Nat :=
  [v % 256, v / 256 % 256, v / 2 ^ 16 % 256, v / 2 ^ 24 % 256]

/-- The `as u8` cast of a `SetType` (its enum discriminant). -/
def SetType.discr : SetType → Nat
  | .None => 0
  | .Pose => 1
  | .CatmullRom => 2
  | .Hermite => 3

/-- `From<&FrameData> for SetType` from `src/write.rs`. -/
def SetType.from_frame_data : FrameData → SetType
  | .None => .None
  | .Pose _ => .Pose
  | .CatmulRom _ => .CatmullRom
  | .Hermite _ => .Hermite

/-- `SetType::as_byte` from `src/write.rs`: pack up to 4 tags into one byte,
`ty.get(x).unwrap_or(&None)` padding a short chunk with `None` (= 0). -/
def SetType.as_byte (ty : List SetType) : Nat :=
  let b := fun x => ((ty.get? x).getD .None).discr
  b 0 ||| b 1 <<< 2 ||| b 2 <<< 4 ||| b 3 <<< 6

/-- `tys.chunks(4)` from `src/write.rs` (`SetType::as_bytes`). -/
def chunks4 : List SetType → List (List SetType)
  | [] => []
  | a :: b :: c :: d :: rest => [a, b, c, d] :: chunks4 rest
  | rest => [rest]

/-- `SetType::as_bytes` from `src/write.rs`. -/
def SetType.as_bytes (tys : List SetType) : List Nat :=
  (chunks4 tys).map SetType.as_byte

/-- `FrameData::write` from `src/write.rs`: the bytes of one track when the
stream is at absolute position `pos`.  For keyframe tracks the source pads with
`pos' % 4` zero bytes where `pos'` is the position right after the frame-index
array. -/
def FrameData.write (pos : Nat) : FrameData → List Nat
  | .None => []
  | .Pose p => u32_bytes p
  | .CatmulRom v =>
    let head := u16_bytes v.length ++ (v.map (fun k => u16_bytes k.frame)).flatten
    head ++ List.replicate ((pos + head.length) % 4) 0
         ++ (v.map (fun k => u32_bytes k.value)).flatten
  | .Hermite v =>
    let head := u16_bytes v.length ++ (v.map (fun k => u16_bytes k.frame)).flatten
    head ++ List.replicate ((pos + head.length) % 4) 0
         ++ (v.map (fun k => u32_bytes k.value ++ u32_bytes k.interpolation)).flatten

/-- The track loop of `RawMotion::write` (`src/write.rs` lines 17-20), threading
the stream position. -/
def write_sets (pos : Nat) : List FrameData → List Nat
  | [] => []
  | s :: rest =>
    let b := FrameData.write pos s
    b ++ write_sets (pos + b.length) rest

/-- `RawMotion::write` from `src/write.rs`: the bytes of one motion body
starting at absolute position `mot_start`, together with the returned
`(set_off, bone_off)` pair.  The source's local `start` (the seek position
after the 4 info bytes) is `mot_start + 4`; the tag array is padded with
`(start + tag_len) % 4` zero bytes; the bone-id list is terminated by a single
extra zero u16. -/
def RawMotion.write (mot_start : Nat) (m : RawMotion) : List Nat × Nat × Nat :=
  let info := u16_bytes m.sets.length ++ u16_bytes m.frames
  let set_ty := m.sets.map SetType.from_frame_data
  let tag0 := SetType.as_bytes set_ty
  let start := mot_start + 4
  let set_ty_bytes := tag0 ++ List.replicate ((start + tag0.length) % 4) 0
  let set_off := start + set_ty_bytes.length
  let tracks := write_sets set_off m.sets
  let bone_off := set_off + tracks.length
  let bones := (m.bones.map u16_bytes).flatten ++ [0, 0]
  (info ++ set_ty_bytes ++ tracks ++ bones, set_off, bone_off)

/-- The body loop of `RawMotion::write_all` (`src/write.rs` lines 33-39):
returns the concatenated bodies and the `(start, set_off, bone_off)` triples. -/
def write_bodies (pos : Nat) : List RawMotion → List Nat × List (Nat × Nat × Nat)
  | [] => ([], [])
  | m :: ms =>
    let r := RawMotion.write pos m
    let rest := write_bodies (pos + r.1.length) ms
    (r.1 ++ rest.1, (pos, r.2.1, r.2.2) :: rest.2)

/-- `RawMotion::write_all` from `src/write.rs`: a `(1 + n) * 16`-byte header
region is reserved, the bodies are written after it, then the header region is
overwritten with one record `(start, start + 4, set_off, bone_off)` per motion
(each field `as u32`) followed by an all-zero terminator record. -/
def RawMotion.write_all (mots : List RawMotion) : List Nat :=
  let header_size := (1 + mots.length) * 16
  let r := write_bodies header_size mots
  (r.2.map (fun t => u32_bytes t.1 ++ u32_bytes (t.1 + 4) ++ u32_bytes t.2.1 ++ u32_bytes t.2.2)).flatten
    ++ List.replicate 16 0 ++ r.1

/-! ### Qualifier / unqualifier (`src/qualify.rs`) -/

/-- Modelled from the spec: `diva_db::bone::BoneType`, the external 7-value
bone *kind* tag (§3, §4.6); variant names follow the `match bone.mode` arms of
`src/qualify.rs`. -/
inductive BoneType : Type where
  | Rotation
  | Type1
  | Position
  | Type3
  | Type4
  | Type5
  | Type6
deriving DecidableEq, Repr

/-- Modelled from the spec: `diva_db::bone::Bone`, an external schema record
"each bone exposing a unique name and a kind tag" (§1, §6); only the `name` and
`mode` fields are consulted by this crate.  `Default::default()`'s mode is
`Rotation` (the first variant); it is never consulted on a `None` entry. -/
structure DbBone where
  name : String
  mode : BoneType
deriving DecidableEq, Repr

/-- Modelled from the spec: `diva_db::bone::Skeleton` (§6). -/
structure Skeleton where
  bones : List DbBone
deriving DecidableEq, Repr

/-- Modelled from the spec: `diva_db::bone::BoneDatabase` (§6). -/
structure BoneDatabase where
  skeletons : List Skeleton
deriving DecidableEq, Repr

/-- Modelled from the spec: `diva_db::mot::MotionSetDatabase` — "ordered list of
bone names indexable by the small integer ids stored in RawMotion.bones" (§6). -/
structure MotionSetDatabase where
  bones : List String
deriving DecidableEq, Repr

abbrev Vec3 := FrameData × FrameData × FrameData

/-- `BoneAnim` from `src/lib.rs`. -/
inductive BoneAnim : Type where
  | Rotation (v : Vec3)
  | Unk (u v : Vec3)
  | Position (v : Vec3)
  | PositionRotation (position rotation : Vec3)
  | RotationIk (target rotation : Vec3)
  | ArmIk (target rotation : Vec3)
  | LegIk (position target : Vec3)
deriving DecidableEq, Repr

/-- `BoneAnim::to_vec` from `src/qualify.rs` (note `LegIk → [target, position]`). -/
def BoneAnim.to_vec : BoneAnim → List Vec3
  | .Rotation v => [v]
  | .Unk u v => [u, v]
  | .Position v => [v]
  | .PositionRotation position rotation => [position, rotation]
  | .RotationIk target rotation => [target, rotation]
  | .ArmIk target rotation => [target, rotation]
  | .LegIk position target => [target, position]

/-- `MotionQualifyError` from `src/qualify.rs`. -/
inductive MotionQualifyError : Type where
  | NoSkeleton
  | PopSet
  | NotInMotDb (id : Nat)
deriving DecidableEq, Repr

/-- `UnqualifyMotionError` from `src/qualify.rs`. -/
inductive UnqualifyMotionError : Type where
  | NotInDatabase (name : String)
deriving DecidableEq, Repr

/-- The `BTreeMap<Bone, Option<BoneAnim>>` of `Motion.anims`, as an association
list kept sorted by bone name.  Modelled from the spec for the ordering: the
`Ord` impl for the `Bone` wrapper lives in `src/ordering.rs`, which is not in
the sources; the spec fixes the map as "ordered by name" with unique names
(§3, §9). -/
abbrev AnimMap := List (DbBone × Option BoneAnim)

/-- Lexicographic order on character lists (comparing code points), the
standard strict order on strings. -/
def charsLt : List Char → List Char → Bool
  | [], [] => false
  | [], _ :: _ => true
  | _ :: _, [] => false
  | a :: as, b :: bs =>
    Nat.blt a.toNat b.toNat || (a = b && charsLt as bs)

/-- Strict name order used by the `anims` map (modelled from the spec: the map
is "ordered by name", §3). -/
def strLt (a b : String) : Bool := charsLt a.data b.data

/-- `BTreeMap::insert` on an `AnimMap`: insert sorted by name; on an existing
name the value is replaced but the stored key is kept (BTreeMap semantics). -/
def AnimMap.insert (b : DbBone) (v : Option BoneAnim) : AnimMap → AnimMap
  | [] => [(b, v)]
  | (b', v') :: rest =>
    if b.name = b'.name then (b', v) :: rest
    else if strLt b.name b'.name then (b, v) :: (b', v') :: rest
    else (b', v') :: AnimMap.insert b v rest

/-- `Motion` from `src/qualify.rs` (the version with the `frames` field used by
`from_raw`/`to_raw`). -/
structure Motion where
  frames : Nat
  anims : AnimMap
deriving DecidableEq, Repr

/-- The `vec3` closure of `Motion::from_raw`: pop three tracks off the front of
the queue, failing with `PopSet` when the queue runs dry. -/
def pop_vec3 : List FrameData → Except MotionQualifyError (Vec3 × List FrameData)
  | x :: y :: z :: rest => .ok ((x, y, z), rest)
  | _ => .error .PopSet

/-- The `let anim = match bone.mode` block of `Motion::from_raw` followed by the
`anims.insert(Bone(bone), Some(anim))`: consume 3 tracks (or 6 for two-group
kinds) and record the animation.  For `Type6` (`LegIk`) the `target` group is
popped first. -/
def consume_bone (bone : DbBone) (sets : List FrameData) (anims : AnimMap) :
    Except MotionQualifyError (List FrameData × AnimMap) :=
  match bone.mode with
  | .Rotation =>
    (pop_vec3 sets).map (fun p => (p.2, anims.insert bone (some (.Rotation p.1))))
  | .Type1 =>
    match pop_vec3 sets with
    | .error e => .error e
    | .ok (u, s1) =>
      (pop_vec3 s1).map (fun p => (p.2, anims.insert bone (some (.Unk u p.1))))
  | .Position =>
    (pop_vec3 sets).map (fun p => (p.2, anims.insert bone (some (.Position p.1))))
  | .Type3 =>
    match pop_vec3 sets with
    | .error e => .error e
    | .ok (position, s1) =>
      (pop_vec3 s1).map (fun p => (p.2, anims.insert bone (some (.PositionRotation position p.1))))
  | .Type4 =>
    match pop_vec3 sets with
    | .error e => .error e
    | .ok (target, s1) =>
      (pop_vec3 s1).map (fun p => (p.2, anims.insert bone (some (.RotationIk target p.1))))
  | .Type5 =>
    match pop_vec3 sets with
    | .error e => .error e
    | .ok (target, s1) =>
      (pop_vec3 s1).map (fun p => (p.2, anims.insert bone (some (.ArmIk target p.1))))
  | .Type6 =>
    match pop_vec3 sets with
    | .error e => .error e
    | .ok (target, s1) =>
      (pop_vec3 s1).map (fun p => (p.2, anims.insert bone (some (.LegIk p.1 target))))

/-- One iteration of the `for id in mot.bones` loop of `Motion::from_raw`
(`src/qualify.rs` lines 88-145): resolve the id to a name via the motion-set
schema, look the name up in the skeleton, apply the `gblctr` / `kg_ya_ex`
fallbacks, and either consume the bone's tracks or record a `None` entry. -/
def from_raw_step (mot_db : MotionSetDatabase) (skel : List DbBone)
    (st : List FrameData × AnimMap) (id : Nat) :
    Except MotionQualifyError (List FrameData × AnimMap) :=
  match mot_db.bones.get? id with
  | none => .error (.NotInMotDb id)
  | some name =>
    match skel.find? (fun x => x.name = name) with
    | some b => consume_bone b st.1 st.2
    | none =>
      if name = "gblctr" then consume_bone ⟨"gblctr", .Position⟩ st.1 st.2
      else if name = "kg_ya_ex" then consume_bone ⟨"kg_ya_ex", .Rotation⟩ st.1 st.2
      else .ok (st.1, st.2.insert ⟨name, .Rotation⟩ none)

/-- The whole bone loop: fold `from_raw_step` over the bone-id list. -/
def from_raw_loop (mot_db : MotionSetDatabase) (skel : List DbBone) :
    List Nat → List FrameData × AnimMap →
    Except MotionQualifyError (List FrameData × AnimMap)
  | [], st => .ok st
  | id :: ids, st =>
    match from_raw_step mot_db skel st id with
    | .error e => .error e
    | .ok st1 => from_raw_loop mot_db skel ids st1

/-- `Motion::from_raw` from `src/qualify.rs`: qualification.  The leftover
queue (`dbg!(sets.len())`) is discarded. -/
def Motion.from_raw (mot : RawMotion) (mot_db : MotionSetDatabase)
    (bone_db : BoneDatabase) : Except MotionQualifyError Motion :=
  match bone_db.skeletons with
  | [] => .error .NoSkeleton
  | sk :: _ =>
    match from_raw_loop mot_db sk.bones mot.bones (mot.sets, []) with
    | .error e => .error e
    | .ok st => .ok ⟨mot.frames, st.2⟩

/-- The bone-id resolution loop of `Motion::to_raw` (`src/qualify.rs` lines
44-54): every key of `anims` — `None` entries included — is resolved to its
first index in the motion-set schema (`as u16`, hence `% 2^16`). -/
def to_raw_bones (mot_db : MotionSetDatabase) : List DbBone →
    Except UnqualifyMotionError (List Nat)
  | [] => .ok []
  | b :: rest =>
    match mot_db.bones.findIdx? (fun y => b.name = y) with
    | none => .error (.NotInDatabase b.name)
    | some idx => (to_raw_bones mot_db rest).map (fun l => idx % 2 ^ 16 :: l)

/-- The `sets` expression of `Motion::to_raw` (`src/qualify.rs` lines 55-63):
present animations only, flattened to `Vec3` groups and then to tracks. -/
def to_raw_sets (anims : AnimMap) : List FrameData :=
  (((anims.map Prod.snd).filterMap id).map BoneAnim.to_vec).flatten.map
    (fun v => [v.1, v.2.1, v.2.2]) |>.flatten

/-- `Motion::to_raw` from `src/qualify.rs`: unqualification.  Note the source
returns `frames: 0`, not `self.frames`. -/
def Motion.to_raw (self : Motion) (mot_db : MotionSetDatabase) :
    Except UnqualifyMotionError RawMotion :=
  match to_raw_bones mot_db (self.anims.map Prod.fst) with
  | .error e => .error e
  | .ok bones => .ok ⟨to_raw_sets self.anims, bones, 0⟩

/-- The spec's tag numbering (§4.3: "Tag values: 0=None, 1=Pose, 2=CatmulRom,
3=Hermite"), an independent reference decoder for one 2-bit tag value, for
comparison with `SetType.parse`. -/
def specTagOfBits : Nat → SetType
  | 0 => .None
  | 1 => .Pose
  | 2 => .CatmullRom
  | _ => .Hermite

/-- The contract of a primitive reader of width `w` with decoder `dec` (§4.1):
it fails with `OutOfRange{want := w, left := |i|}` exactly when fewer than `w`
bytes remain, and otherwise returns the value decoded from the first `w` bytes
together with the untouched remaining suffix (so it never reads past the
buffer end). -/
def readerSpec (w : Nat) (dec : List Nat → α)
    (reader : List Nat → Except OutOfRange (List Nat × α)) : Prop :=
  ∀ i : List Nat,
    (reader i = .error ⟨w, i.length⟩ ↔ i.length < w) ∧
    (w ≤ i.length → reader i = .ok (i.drop w, dec (i.take w)))

/-- Number of `Vec3` track groups a bone kind consumes (§4.6): 3 tracks for
one-group kinds, 6 for two-group kinds. -/
def BoneType.groups : BoneType → Nat
  | .Rotation => 1
  | .Type1 => 2
  | .Position => 1
  | .Type3 => 2
  | .Type4 => 2
  | .Type5 => 2
  | .Type6 => 2

/-- Well-formed track: the keyframe count fits u16, frame indices fit u16 and
value bit patterns fit 32 bits (so the writer's `as u16` / `to_le_bytes` casts
are lossless). -/
def FrameData.wf : FrameData → Prop
  | .None => True
  | .Pose v => v < 2 ^ 32
  | .CatmulRom ks => ks.length < 2 ^ 16 ∧ ∀ k ∈ ks, k.frame < 2 ^ 16 ∧ k.value < 2 ^ 32
  | .Hermite ks => ks.length < 2 ^ 16 ∧
      ∀ k ∈ ks, k.frame < 2 ^ 16 ∧ k.value < 2 ^ 32 ∧ k.interpolation < 2 ^ 32

instance : DecidablePred FrameData.wf := fun fd =>
  match fd with
  | .None => .isTrue trivial
  | .Pose v => inferInstanceAs (Decidable (v < 2 ^ 32))
  | .CatmulRom _ => inferInstanceAs (Decidable (_ ∧ _))
  | .Hermite _ => inferInstanceAs (Decidable (_ ∧ _))

/-- Well-formed motion for the amended round-trip claim: the track count fits
the 14-bit header field, `frames` and all bone ids fit u16, every track is
well-formed, and the bone-id list contains the value 0 exactly once.  The
last condition is forced by the sentinel asymmetry: the reader appends the
first zero it sees and stops only at a second one, while the writer appends
exactly one terminating zero, so a zero-free or multi-zero list cannot
round-trip. -/
def RawMotion.wf (m : RawMotion) : Prop :=
  m.sets.length < 0x4000 ∧ m.frames < 2 ^ 16 ∧ (∀ s ∈ m.sets, s.wf) ∧
  (∀ b ∈ m.bones, b < 2 ^ 16) ∧ m.bones.count 0 = 1

instance : DecidablePred RawMotion.wf := fun m => by
  unfold RawMotion.wf; infer_instance

/-- Bone-id resolution of §4.6: the id indexes the motion-set schema, and the
resulting name is looked up in the skeleton (as in `Motion::from_raw`). -/
def resolve_bone (mot_db : MotionSetDatabase) (skel : List DbBone) (id : Nat) :
    Option DbBone :=
  (mot_db.bones.get? id).bind (fun name => skel.find? (fun x => x.name = name))

/-- Total number of tracks (3 per `Vec3` group) that qualifying the bone-id
list consumes, per the kinds resolved through both schemas (§4.6); an
unresolvable id consumes 0. -/
def tracks_needed (mot_db : MotionSetDatabase) (skel : List DbBone) : List Nat → Nat
  | [] => 0
  | id :: ids =>
    3 * (((resolve_bone mot_db skel id).map (fun b => b.mode.groups)).getD 0)
      + tracks_needed mot_db skel ids

/-- The name an id resolves to (for stating name-order hypotheses). -/
def resolved_name (mot_db : MotionSetDatabase) (skel : List DbBone) (id : Nat) : String :=
  (((resolve_bone mot_db skel id).map DbBone.name).getD "")

theorem le_u16_ok_iff (i : List Nat) :
    (∃ r v, le_u16 i = .ok (r, v)) ↔ 2 ≤ i.length := by
  unfold le_u16 intReader input_array
  split
  · exact ⟨fun _ => by assumption, fun h => ⟨_, _, rfl⟩⟩
  · constructor
    · rintro ⟨r, v, h⟩
      simp [Except.map] at h
    · omega

theorem le_u16_ok_elim {i r : List Nat} {v : Nat} (h : le_u16 i = .ok (r, v)) :
    r = i.drop 2 ∧ v = fromLeBytes (i.take 2) ∧ 2 ≤ i.length := by
  unfold le_u16 intReader input_array at h
  split at h
  · simp [Except.map] at h
    exact ⟨h.1.symm, h.2.symm, by assumption⟩
  · simp [Except.map] at h

theorem le_u32_ok_elim {i r : List Nat} {v : Nat} (h : le_u32 i = .ok (r, v)) :
    r = i.drop 4 ∧ v = fromLeBytes (i.take 4) ∧ 4 ≤ i.length := by
  unfold le_u32 intReader input_array at h
  split at h
  · simp [Except.map] at h
    exact ⟨h.1.symm, h.2.symm, by assumption⟩
  · simp [Except.map] at h

theorem HeaderOffsets.parse_ok_length {i i1 : List Nat} {x : Option HeaderOffsets}
    (h : HeaderOffsets.parse i = .ok (i1, x)) : i1 = i.drop 16 ∧ 16 ≤ i.length := by
  unfold HeaderOffsets.parse at h
  cases e1 : le_u32 i with
  | error a => simp [e1] at h
  | ok p1 =>
  obtain ⟨j1, v1⟩ := p1
  simp only [e1] at h
  cases e2 : le_u32 j1 with
  | error a => simp [e2] at h
  | ok p2 =>
  obtain ⟨j2, v2⟩ := p2
  simp only [e2] at h
  cases e3 : le_u32 j2 with
  | error a => simp [e3] at h
  | ok p3 =>
  obtain ⟨j3, v3⟩ := p3
  simp only [e3] at h
  cases e4 : le_u32 j3 with
  | error a => simp [e4] at h
  | ok p4 =>
  obtain ⟨j4, v4⟩ := p4
  simp only [e4] at h
  have hi1 : i1 = j4 := by
    split at h <;> (cases h; rfl)
  obtain ⟨h1a, -, h1c⟩ := le_u32_ok_elim e1
  obtain ⟨h2a, -, h2c⟩ := le_u32_ok_elim e2
  obtain ⟨h3a, -, h3c⟩ := le_u32_ok_elim e3
  obtain ⟨h4a, -, h4c⟩ := le_u32_ok_elim e4
  subst hi1 h4a h3a h2a h1a
  simp only [List.drop_drop, List.length_drop] at *
  exact ⟨by norm_num, by omega⟩

theorem short_header_parse_error {i : List Nat} (h : i.length < 16) :
    ∃ e, HeaderOffsets.parse i = .error e := by
  unfold HeaderOffsets.parse
  cases e1 : le_u32 i with
  | error a => exact ⟨a, rfl⟩
  | ok p1 =>
  obtain ⟨j1, v1⟩ := p1
  obtain ⟨h1a, -, h1c⟩ := le_u32_ok_elim e1
  cases e2 : le_u32 j1 with
  | error a => exact ⟨a, by simp [e1, e2]⟩
  | ok p2 =>
  obtain ⟨j2, v2⟩ := p2
  obtain ⟨h2a, -, h2c⟩ := le_u32_ok_elim e2
  cases e3 : le_u32 j2 with
  | error a => exact ⟨a, by simp [e1, e2, e3]⟩
  | ok p3 =>
  obtain ⟨j3, v3⟩ := p3
  obtain ⟨h3a, -, h3c⟩ := le_u32_ok_elim e3
  cases e4 : le_u32 j3 with
  | error a => exact ⟨a, by simp [e1, e2, e3, e4]⟩
  | ok p4 =>
  exfalso
  subst h3a h2a h1a
  obtain ⟨-, -, h4c⟩ := le_u32_ok_elim e4
  simp only [List.drop_drop, List.length_drop] at *
  omega

theorem exists_sixteen_cons {i : List Nat} (hlen : 16 ≤ i.length) :
    ∃ b0 b1 b2 b3 b4 b5 b6 b7 b8 b9 b10 b11 b12 b13 b14 b15 rest,
      i = b0 :: b1 :: b2 :: b3 :: b4 :: b5 :: b6 :: b7 ::
          b8 :: b9 :: b10 :: b11 :: b12 :: b13 :: b14 :: b15 :: rest := by
  match i, hlen with
  | a0 :: a1 :: a2 :: a3 :: a4 :: a5 :: a6 :: a7 ::
    a8 :: a9 :: a10 :: a11 :: a12 :: a13 :: a14 :: a15 :: r, _ =>
    exact ⟨a0, a1, a2, a3, a4, a5, a6, a7, a8, a9, a10, a11, a12, a13, a14, a15, r, rfl⟩

/-- Source-shaped loop step: when one header record parses, the loop conses it
and recurses on the parser-returned remainder. -/
theorem many_till_none_headers_step {i : List Nat} {hd : HeaderOffsets}
    (hp : HeaderOffsets.parse i = .ok (i.drop 16, some hd)) :
    many_till_none_headers i = (many_till_none_headers (i.drop 16)).map (fun l => hd :: l) := by
  have hlen := (HeaderOffsets.parse_ok_length hp).2
  obtain ⟨b0, b1, b2, b3, b4, b5, b6, b7, b8, b9, b10, b11, b12, b13, b14, b15, rest, rfl⟩ :=
    exists_sixteen_cons hlen
  simp only [many_till_none_headers, hp]
  rfl

/-- Source-shaped loop stop: the all-zero record terminates the loop and is
discarded (`nth = 0`). -/
theorem many_till_none_headers_stop {i : List Nat}
    (hp : HeaderOffsets.parse i = .ok (i.drop 16, none)) :
    many_till_none_headers i = .ok [] := by
  have hlen := (HeaderOffsets.parse_ok_length hp).2
  obtain ⟨b0, b1, b2, b3, b4, b5, b6, b7, b8, b9, b10, b11, b12, b13, b14, b15, rest, rfl⟩ :=
    exists_sixteen_cons hlen
  simp only [many_till_none_headers, hp]

/-- The structural `many_till_nth_u16` satisfies the source's loop equation
(one `le_u16` read per iteration, sentinel bookkeeping as in
`many_till_nth`). -/
theorem many_till_nth_u16_eq_source (c nth occ : Nat) (i : List Nat) :
    many_till_nth_u16 c nth occ i =
      match le_u16 i with
      | .error e => .error e
      | .ok (i1, r) =>
        if r = c then
          if occ < nth then (many_till_nth_u16 c nth (occ + 1) i1).map (fun l => r :: l)
          else .ok []
        else (many_till_nth_u16 c nth occ i1).map (fun l => r :: l) := by
  match i with
  | [] => rfl
  | [b0] => rfl
  | b0 :: b1 :: rest =>
    have h2 : le_u16 (b0 :: b1 :: rest) = .ok (rest, fromLeBytes [b0, b1]) := by
      simp [le_u16, intReader, input_array, Except.map]
    rw [h2]
    rfl

theorem intReader_spec (w : Nat) (dec : List Nat → α) :
    readerSpec w dec (intReader w dec) := by
  intro i
  refine ⟨⟨fun h => ?_, fun h => ?_⟩, fun h => ?_⟩
  · unfold intReader input_array at h
    split at h
    · simp [Except.map] at h
    · omega
  · unfold intReader input_array
    rw [if_neg (by omega)]
    rfl
  · unfold intReader input_array
    rw [if_pos h]
    rfl

/-- C9: every primitive reader (u16/u32/u64/i16/i32/i64/f32/f64, both
endiannesses) fails with `OutOfRange{want, left}` exactly when the buffer holds
fewer bytes than the value's width, and on success returns the value decoded
from the first `width` bytes together with the remaining suffix, never touching
bytes past the width (`readerSpec`). -/
theorem c9_primitive_readers :
    readerSpec 2 fromLeBytes le_u16 ∧ readerSpec 2 fromBeBytes be_u16 ∧
    readerSpec 4 fromLeBytes le_u32 ∧ readerSpec 4 fromBeBytes be_u32 ∧
    readerSpec 8 fromLeBytes le_u64 ∧ readerSpec 8 fromBeBytes be_u64 ∧
    readerSpec 2 (toSigned 2 ∘ fromLeBytes) le_i16 ∧
    readerSpec 2 (toSigned 2 ∘ fromBeBytes) be_i16 ∧
    readerSpec 4 (toSigned 4 ∘ fromLeBytes) le_i32 ∧
    readerSpec 4 (toSigned 4 ∘ fromBeBytes) be_i32 ∧
    readerSpec 8 (toSigned 8 ∘ fromLeBytes) le_i64 ∧
    readerSpec 8 (toSigned 8 ∘ fromBeBytes) be_i64 ∧
    readerSpec 4 fromLeBytes le_f32 ∧ readerSpec 4 fromBeBytes be_f32 ∧
    readerSpec 8 fromLeBytes le_f64 ∧ readerSpec 8 fromBeBytes be_f64 :=
  ⟨intReader_spec _ _, intReader_spec _ _, intReader_spec _ _, intReader_spec _ _,
   intReader_spec _ _, intReader_spec _ _, intReader_spec _ _, intReader_spec _ _,
   intReader_spec _ _, intReader_spec _ _, intReader_spec _ _, intReader_spec _ _,
   intReader_spec _ _, intReader_spec _ _, intReader_spec _ _, intReader_spec _ _⟩

/-- Witness for C9: `le_u16` on a 3-byte buffer succeeds with the 2-byte
little-endian value and the 1-byte suffix; `le_u32` on a 1-byte buffer fails
with `OutOfRange{want := 4, left := 1}`. -/
theorem c9_witness :
    le_u16 [1, 2, 3] = .ok ([1, 2, 3].drop 2, fromLeBytes ([1, 2, 3].take 2)) ∧
    le_u32 [9] = .error ⟨4, ([9] : List Nat).length⟩ :=
  ⟨(c9_primitive_readers.1 [1, 2, 3]).2 (by decide),
   ((c9_primitive_readers.2.2.1 [9]).1).2 (by decide)⟩

/-- C8: unpacking one type-tag byte yields 4 tags of 2 bits each, least
significant pair first, numbered 0=None, 1=Pose, 2=CatmullRom, 3=Hermite
(`specTagOfBits` spells out the spec's table); in particular `0b11_10_01_00`
decodes to `[None, Pose, CatmullRom, Hermite]` and `0b11_00_01_11` to
`[Hermite, Pose, None, Hermite]`. -/
theorem c8_tag_unpacking :
    (∀ b, b < 256 → SetType.parse b =
      [specTagOfBits (b % 4), specTagOfBits (b / 4 % 4),
       specTagOfBits (b / 16 % 4), specTagOfBits (b / 64 % 4)]) ∧
    SetType.parse 0b11100100 = [.None, .Pose, .CatmullRom, .Hermite] ∧
    SetType.parse 0b11000111 = [.Hermite, .Pose, .None, .Hermite] :=
  ⟨by decide, by decide, by decide⟩

/-- Witness for C8: the general tag equation applied at byte 5 (= 0b01_01). -/
theorem c8_witness :
    SetType.parse 5 = [specTagOfBits (5 % 4), specTagOfBits (5 / 4 % 4),
      specTagOfBits (5 / 16 % 4), specTagOfBits (5 / 64 % 4)] :=
  c8_tag_unpacking.1 5 (by decide)

/-- C5: the bone-id decoder reads little-endian u16 values, appends the first
occurrence of 0 as a normal id and terminates at the second occurrence of 0,
which is discarded: the u16 stream [5, 0, 0] (bytes `05 00 00 00 00 00`)
decodes to [5, 0], the stream [0, 0] decodes to [0], and bytes `01 02` decode
to the id 513 (little-endian). -/
theorem c5_bone_sentinel :
    many_till_nth_u16 0 1 0 [5, 0, 0, 0, 0, 0] = .ok [5, 0] ∧
    many_till_nth_u16 0 1 0 [0, 0, 0, 0] = .ok [0] ∧
    many_till_nth_u16 0 1 0 [1, 2, 0, 0, 0, 0] = .ok [513, 0] := by
  decide

/-- C6 (refuting the claim): a 36-byte file whose single motion header points
`set_types` at offset 36 (one past the last byte, an in-bounds empty region)
with a track count of 1 makes `RawMotion::read` panic (`i[0]` on an empty
slice inside `SetType::parse_helper`, the `none` of the model) instead of
returning the documented `SetTypeReadError`. -/
theorem c6_short_set_types_panics :
    RawMotion.read ([32, 0, 0, 0, 36, 0, 0, 0, 36, 0, 0, 0, 36, 0, 0, 0]
      ++ List.replicate 16 0 ++ [1, 0, 0, 0]) = none := by
  decide

/-- C3 (code behaviour at the failing input): a `Motion` with `frames = 7`
unqualifies to a `RawMotion` with `frames = 0` — `Motion::to_raw` hardcodes
`frames: 0` instead of carrying `self.frames` forward. -/
theorem c3_frames_not_carried :
    Motion.to_raw ⟨7, [(⟨"x", .Rotation⟩, some (.Rotation (.None, .None, .None)))]⟩ ⟨["x"]⟩
      = .ok ⟨[.None, .None, .None], [0], 0⟩ := by
  decide

/-- Counterexample to C4: a `Motion` whose single entry is a `None` animation
for bone "x" (resolving to index 0) unqualifies to bones = [0], not [] — the
`None` entry contributes its bone-id (only the tracks are skipped). -/
theorem c4_counterexample :
    Motion.to_raw ⟨0, [(⟨"x", .Rotation⟩, none)]⟩ ⟨["x"]⟩ = .ok ⟨[], [0], 0⟩ ∧
    ([0] : List Nat) ≠ [] := by
  decide

/-- Counterexample to C2: both bone ids of R resolve in both schemas (names
"zz" and "aa", both of kind Rotation), yet
`to_raw(from_raw(R, motDb, boneDb), motDb).sets ≠ R.sets`: the anims map
iterates in name order ("aa" before "zz"), so the six tracks come back
reordered. -/
theorem c2_counterexample :
    (Motion.from_raw ⟨[.Pose 0, .Pose 1, .Pose 2, .Pose 3, .Pose 4, .Pose 5], [0, 1], 0⟩
        ⟨["zz", "aa"]⟩ ⟨[⟨[⟨"zz", .Rotation⟩, ⟨"aa", .Rotation⟩]⟩]⟩).map
      (fun m => m.to_raw ⟨["zz", "aa"]⟩) =
      .ok (.ok ⟨[.Pose 3, .Pose 4, .Pose 5, .Pose 0, .Pose 1, .Pose 2], [1, 0], 0⟩) ∧
    [FrameData.Pose 3, .Pose 4, .Pose 5, .Pose 0, .Pose 1, .Pose 2] ≠
      [FrameData.Pose 0, .Pose 1, .Pose 2, .Pose 3, .Pose 4, .Pose 5] := by
  decide

/-- Counterexample to C1, two independent failure modes.  First: a motion whose
bone list [5] contains no zero — the writer emits a single terminating zero but
the reader requires a second zero, so it runs off the end of the buffer and
parsing fails.  Second: a well-formed bone list [1, 0] but total output length
≡ 2 (mod 4) — the writer pads keyframe values to `pos % 4` while the reader
skips `remaining % 4`, the two disagree, and the value bytes are misread
(0x01020304 comes back as 0x03040000). -/
theorem c1_counterexample :
    RawMotion.read (RawMotion.write_all [⟨[], [5], 0⟩]) ≠
      some (.ok [⟨[], [5], 0⟩]) ∧
    RawMotion.read (RawMotion.write_all [⟨[.CatmulRom [⟨1, 0x01020304, ()⟩]], [1, 0], 0⟩]) ≠
      some (.ok [⟨[.CatmulRom [⟨1, 0x01020304, ()⟩]], [1, 0], 0⟩]) := by
  decide

/-- C7: during qualification, a bone-id whose resolved name is absent from the
skeleton is handled by fallbacks: name "gblctr" is treated as a bone of kind
`Position`, name "kg_ya_ex" as kind `Rotation` (both then consume tracks like a
found bone of that kind, via `consume_bone`), and any other absent name records
a `None` entry while leaving the track queue untouched and continuing with
`.ok` instead of failing. -/
theorem c7_unresolved_bone_fallbacks (mot_db : MotionSetDatabase) (skel : List DbBone)
    (sets : List FrameData) (anims : AnimMap) (id : Nat) (name : String)
    (hname : mot_db.bones.get? id = some name)
    (habsent : skel.find? (fun x => x.name = name) = none) :
    (name = "gblctr" →
      from_raw_step mot_db skel (sets, anims) id =
        consume_bone ⟨"gblctr", .Position⟩ sets anims) ∧
    (name = "kg_ya_ex" →
      from_raw_step mot_db skel (sets, anims) id =
        consume_bone ⟨"kg_ya_ex", .Rotation⟩ sets anims) ∧
    (name ≠ "gblctr" → name ≠ "kg_ya_ex" →
      from_raw_step mot_db skel (sets, anims) id =
        .ok (sets, anims.insert ⟨name, .Rotation⟩ none)) := by
  refine ⟨fun h => ?_, fun h => ?_, fun h1 h2 => ?_⟩ <;>
    simp only [from_raw_step, hname, habsent]
  · subst h
    rw [if_pos rfl]
  · subst h
    rw [if_neg (by decide), if_pos rfl]
  · rw [if_neg h1, if_neg h2]

/-- Witness for C7: the three fallbacks at concrete inputs (an empty skeleton,
so every name is absent). -/
theorem c7_witness :
    from_raw_step ⟨["gblctr"]⟩ [] ([.Pose 1, .Pose 2, .Pose 3], []) 0
      = consume_bone ⟨"gblctr", .Position⟩ [.Pose 1, .Pose 2, .Pose 3] [] ∧
    from_raw_step ⟨["kg_ya_ex"]⟩ [] ([.Pose 1, .Pose 2, .Pose 3], []) 0
      = consume_bone ⟨"kg_ya_ex", .Rotation⟩ [.Pose 1, .Pose 2, .Pose 3] [] ∧
    from_raw_step ⟨["zzz"]⟩ [] ([.Pose 1], []) 0
      = .ok ([.Pose 1], AnimMap.insert ⟨"zzz", .Rotation⟩ none []) :=
  ⟨(c7_unresolved_bone_fallbacks ⟨["gblctr"]⟩ [] [.Pose 1, .Pose 2, .Pose 3] [] 0 "gblctr"
      (by decide) (by decide)).1 rfl,
   (c7_unresolved_bone_fallbacks ⟨["kg_ya_ex"]⟩ [] [.Pose 1, .Pose 2, .Pose 3] [] 0 "kg_ya_ex"
      (by decide) (by decide)).2.1 rfl,
   (c7_unresolved_bone_fallbacks ⟨["zzz"]⟩ [] [.Pose 1] [] 0 "zzz"
      (by decide) (by decide)).2.2 (by decide) (by decide)⟩

theorem chunks4_length : ∀ ts : List SetType, (chunks4 ts).length = (ts.length + 3) / 4
  | [] => by simp [chunks4]
  | [_] => by simp [chunks4]
  | [_, _] => by simp [chunks4]
  | [_, _, _] => by simp [chunks4]
  | _ :: _ :: _ :: _ :: rest => by
    simp only [chunks4, List.length_cons, chunks4_length rest]
    omega

/-- C10: one motion body written at absolute offset `mot_start` is the 4 info
bytes, then `⌈track_count/4⌉` packed tag bytes, then exactly `p % 4` zero bytes
of padding where `p = mot_start + 4 + ⌈track_count/4⌉` is the absolute offset
just past the tag array, then the tracks, then the bone ids and terminator;
and the `set_off` the writer reports (which `write_all` records verbatim in
the header table) is `p + p % 4`, one byte past the padding. -/
theorem c10_tag_padding (m : RawMotion) (mot_start : Nat) :
    (RawMotion.write mot_start m).1 =
      (u16_bytes m.sets.length ++ u16_bytes m.frames)
        ++ SetType.as_bytes (m.sets.map SetType.from_frame_data)
        ++ List.replicate ((mot_start + 4 + (m.sets.length + 3) / 4) % 4) 0
        ++ write_sets (mot_start + 4 + (m.sets.length + 3) / 4
            + (mot_start + 4 + (m.sets.length + 3) / 4) % 4) m.sets
        ++ ((m.bones.map u16_bytes).flatten ++ [0, 0]) ∧
    (RawMotion.write mot_start m).2.1 =
      mot_start + 4 + (m.sets.length + 3) / 4
        + (mot_start + 4 + (m.sets.length + 3) / 4) % 4 := by
  have hlen : (SetType.as_bytes (m.sets.map SetType.from_frame_data)).length
      = (m.sets.length + 3) / 4 := by
    unfold SetType.as_bytes
    rw [List.length_map, chunks4_length, List.length_map]
  unfold RawMotion.write
  simp only [List.length_append, List.length_replicate, hlen, List.append_assoc]
  exact ⟨by ring_nf, by ring_nf⟩

theorem to_raw_bones_length (mot_db : MotionSetDatabase) :
    ∀ (bs : List DbBone) (l : List Nat), to_raw_bones mot_db bs = .ok l → l.length = bs.length
  | [], l, h => by
    unfold to_raw_bones at h
    cases h
    rfl
  | b :: rest, l, h => by
    unfold to_raw_bones at h
    cases hf : mot_db.bones.findIdx? (fun y => b.name = y) with
    | none => simp [hf] at h
    | some idx =>
      simp only [hf] at h
      cases hr : to_raw_bones mot_db rest with
      | error e => simp [hr, Except.map] at h
      | ok l1 =>
        simp only [hr, Except.map, Except.ok.injEq] at h
        subst h
        simp [to_raw_bones_length mot_db rest l1 hr]

theorem vec3_tracks_length : ∀ gs : List Vec3,
    ((gs.map (fun v => [v.1, v.2.1, v.2.2])).flatten).length = 3 * gs.length
  | [] => rfl
  | g :: gs => by
    simp [vec3_tracks_length gs]
    ring

theorem to_raw_sets_cons_none (b : DbBone) (tl : AnimMap) :
    to_raw_sets ((b, none) :: tl) = to_raw_sets tl := by
  simp [to_raw_sets]

theorem to_raw_sets_cons_some (b : DbBone) (a : BoneAnim) (tl : AnimMap) :
    to_raw_sets ((b, some a) :: tl) =
      (a.to_vec.map (fun v => [v.1, v.2.1, v.2.2])).flatten ++ to_raw_sets tl := by
  simp [to_raw_sets]

theorem to_raw_sets_length : ∀ anims : AnimMap,
    (to_raw_sets anims).length =
      3 * (((anims.map Prod.snd).filterMap id).map (fun a => a.to_vec.length)).sum
  | [] => rfl
  | (b, none) :: tl => by
    rw [to_raw_sets_cons_none]
    simpa using to_raw_sets_length tl
  | (b, some a) :: tl => by
    rw [to_raw_sets_cons_some, List.length_append, vec3_tracks_length, to_raw_sets_length tl]
    simp
    ring

/-- C4 as amended: a `None` entry of `anims` contributes no tracks but does
contribute its bone-id — `to_raw` emits exactly one bone-id per `anims` entry
(`None` entries included) and `3 * groups` tracks for the `Some` entries
only. -/
theorem c4_none_entries_amended (m : Motion) (db : MotionSetDatabase) (r : RawMotion)
    (h : m.to_raw db = .ok r) :
    r.bones.length = m.anims.length ∧
    r.sets.length = 3 * (((m.anims.map Prod.snd).filterMap id).map
      (fun a => a.to_vec.length)).sum := by
  unfold Motion.to_raw at h
  cases hb : to_raw_bones db (m.anims.map Prod.fst) with
  | error e => simp [hb] at h
  | ok bones =>
    simp only [hb] at h
    cases h
    refine ⟨?_, to_raw_sets_length _⟩
    have := to_raw_bones_length db _ _ hb
    simpa using this

/-- Witness for the amended C4: the `Motion` of the counterexample (one `None`
entry) yields one bone-id and zero tracks. -/
theorem c4_none_entries_amended_witness :
    (RawMotion.mk [] [0] 0).bones.length
        = (Motion.mk 0 [(⟨"x", .Rotation⟩, none)]).anims.length ∧
    (RawMotion.mk [] [0] 0).sets.length
        = 3 * ((((Motion.mk 0 [(⟨"x", .Rotation⟩, none)]).anims.map Prod.snd).filterMap id).map
            (fun a => a.to_vec.length)).sum :=
  c4_none_entries_amended ⟨0, [(⟨"x", .Rotation⟩, none)]⟩ ⟨["x"]⟩ ⟨[], [0], 0⟩ (by decide)

theorem charsLt_irrefl : ∀ l : List Char, charsLt l l = false
  | [] => rfl
  | a :: as => by
    simp [charsLt, charsLt_irrefl as, Bool.eq_false_iff, ne_eq, Nat.blt_eq]

theorem charsLt_asymm : ∀ l1 l2 : List Char, charsLt l1 l2 = true → charsLt l2 l1 = false
  | [], [], h => by simp [charsLt] at h
  | [], _ :: _, _ => by simp [charsLt]
  | _ :: _, [], h => by simp [charsLt] at h
  | a :: as, b :: bs, h => by
    simp only [charsLt, Bool.or_eq_true, Bool.and_eq_true, decide_eq_true_eq, Nat.blt_eq] at h
    simp only [charsLt, Bool.eq_false_iff, ne_eq, Bool.or_eq_true, Bool.and_eq_true,
      decide_eq_true_eq, Nat.blt_eq, not_or, not_and]
    rcases h with h1 | ⟨h2, h3⟩
    · refine ⟨by omega, fun hba => by subst hba; omega⟩
    · subst h2
      refine ⟨by omega, fun _ => by simp [charsLt_asymm as bs h3]⟩

theorem strLt_irrefl (a : String) : strLt a a = false := charsLt_irrefl a.data

theorem strLt_asymm {a b : String} (h : strLt a b = true) : strLt b a = false :=
  charsLt_asymm _ _ h

theorem ne_of_strLt {a b : String} (h : strLt a b = true) : a ≠ b := by
  intro he
  subst he
  rw [strLt_irrefl] at h
  cases h

theorem insert_append_of_lt : ∀ (acc : AnimMap) (b : DbBone) (v : Option BoneAnim),
    (∀ p ∈ acc, strLt p.1.name b.name = true) →
    AnimMap.insert b v acc = acc ++ [(b, v)]
  | [], _, _, _ => rfl
  | (b', v') :: rest, b, v, h => by
    have hlt : strLt b'.name b.name = true := h (b', v') (by simp)
    have hne : b.name ≠ b'.name := (ne_of_strLt hlt).symm
    have hnlt : strLt b.name b'.name = false := strLt_asymm hlt
    unfold AnimMap.insert
    rw [if_neg hne, if_neg (by simp [hnlt])]
    simp [insert_append_of_lt rest b v (fun p hp => h p (by simp [hp]))]

theorem exists_three_cons {q : List FrameData} (h : 3 ≤ q.length) :
    ∃ x y z rest, q = x :: y :: z :: rest := by
  match q, h with
  | x :: y :: z :: r, _ => exact ⟨x, y, z, r, rfl⟩

theorem exists_six_cons {q : List FrameData} (h : 6 ≤ q.length) :
    ∃ u v w x y z rest, q = u :: v :: w :: x :: y :: z :: rest := by
  match q, h with
  | u :: v :: w :: x :: y :: z :: r, _ => exact ⟨u, v, w, x, y, z, r, rfl⟩

/-- `consume_bone` on a long-enough queue: it pops exactly `3 * groups` tracks,
inserts the built animation, and the animation flattens back (in `to_vec`
order) to exactly the tracks it consumed. -/
theorem consume_bone_spec (b : DbBone) (q : List FrameData) (acc : AnimMap)
    (hq : 3 * b.mode.groups ≤ q.length) :
    ∃ a : BoneAnim,
      consume_bone b q acc = .ok (q.drop (3 * b.mode.groups), AnimMap.insert b (some a) acc) ∧
      (a.to_vec.map (fun v => [v.1, v.2.1, v.2.2])).flatten = q.take (3 * b.mode.groups) := by
  cases hm : b.mode
  case Rotation =>
    rw [hm] at hq
    obtain ⟨x, y, z, rest, rfl⟩ := exists_three_cons (by simpa [BoneType.groups] using hq)
    exact ⟨.Rotation (x, y, z), by simp [consume_bone, hm, pop_vec3, BoneType.groups, Except.map],
      by simp [BoneAnim.to_vec, BoneType.groups]⟩
  case Position =>
    rw [hm] at hq
    obtain ⟨x, y, z, rest, rfl⟩ := exists_three_cons (by simpa [BoneType.groups] using hq)
    exact ⟨.Position (x, y, z), by simp [consume_bone, hm, pop_vec3, BoneType.groups, Except.map],
      by simp [BoneAnim.to_vec, BoneType.groups]⟩
  case Type1 =>
    rw [hm] at hq
    obtain ⟨u, v, w, x, y, z, rest, rfl⟩ := exists_six_cons (by simpa [BoneType.groups] using hq)
    exact ⟨.Unk (u, v, w) (x, y, z), by simp [consume_bone, hm, pop_vec3, BoneType.groups, Except.map],
      by simp [BoneAnim.to_vec, BoneType.groups]⟩
  case Type3 =>
    rw [hm] at hq
    obtain ⟨u, v, w, x, y, z, rest, rfl⟩ := exists_six_cons (by simpa [BoneType.groups] using hq)
    exact ⟨.PositionRotation (u, v, w) (x, y, z),
      by simp [consume_bone, hm, pop_vec3, BoneType.groups, Except.map],
      by simp [BoneAnim.to_vec, BoneType.groups]⟩
  case Type4 =>
    rw [hm] at hq
    obtain ⟨u, v, w, x, y, z, rest, rfl⟩ := exists_six_cons (by simpa [BoneType.groups] using hq)
    exact ⟨.RotationIk (u, v, w) (x, y, z),
      by simp [consume_bone, hm, pop_vec3, BoneType.groups, Except.map],
      by simp [BoneAnim.to_vec, BoneType.groups]⟩
  case Type5 =>
    rw [hm] at hq
    obtain ⟨u, v, w, x, y, z, rest, rfl⟩ := exists_six_cons (by simpa [BoneType.groups] using hq)
    exact ⟨.ArmIk (u, v, w) (x, y, z),
      by simp [consume_bone, hm, pop_vec3, BoneType.groups, Except.map],
      by simp [BoneAnim.to_vec, BoneType.groups]⟩
  case Type6 =>
    rw [hm] at hq
    obtain ⟨u, v, w, x, y, z, rest, rfl⟩ := exists_six_cons (by simpa [BoneType.groups] using hq)
    exact ⟨.LegIk (x, y, z) (u, v, w),
      by simp [consume_bone, hm, pop_vec3, BoneType.groups, Except.map],
      by simp [BoneAnim.to_vec, BoneType.groups]⟩

theorem to_raw_sets_append (l1 l2 : AnimMap) :
    to_raw_sets (l1 ++ l2) = to_raw_sets l1 ++ to_raw_sets l2 := by
  simp [to_raw_sets]

theorem resolve_bone_elim {mot_db : MotionSetDatabase} {skel : List DbBone} {id : Nat}
    {b : DbBone} (h : resolve_bone mot_db skel id = some b) :
    ∃ name, mot_db.bones.get? id = some name ∧
      skel.find? (fun x => x.name = name) = some b ∧ b.name = name := by
  unfold resolve_bone at h
  cases hg : mot_db.bones.get? id with
  | none => rw [hg] at h; cases h
  | some name =>
    rw [hg] at h
    have h' : skel.find? (fun x => x.name = name) = some b := h
    refine ⟨name, rfl, h', ?_⟩
    have := List.find?_some h'
    simpa using this

theorem from_raw_step_resolved (mot_db : MotionSetDatabase) (skel : List DbBone)
    (st : List FrameData × AnimMap) (id : Nat) (b : DbBone)
    (hres : resolve_bone mot_db skel id = some b) :
    from_raw_step mot_db skel st id = consume_bone b st.1 st.2 := by
  obtain ⟨name, hg, hf, -⟩ := resolve_bone_elim hres
  unfold from_raw_step
  simp only [hg, hf]

theorem to_raw_bones_ok (mot_db : MotionSetDatabase) :
    ∀ bs : List DbBone, (∀ b ∈ bs, b.name ∈ mot_db.bones) →
    ∃ l, to_raw_bones mot_db bs = .ok l
  | [], _ => ⟨[], rfl⟩
  | b :: rest, h => by
    have hb : b.name ∈ mot_db.bones := h b (by simp)
    have hsome : (mot_db.bones.findIdx? (fun y => b.name = y)).isSome := by
      rw [Option.isSome_iff_ne_none]
      intro hn
      rw [List.findIdx?_eq_none_iff] at hn
      have := hn _ hb
      simp at this
    obtain ⟨idx, hidx⟩ := Option.isSome_iff_exists.mp hsome
    obtain ⟨l, hl⟩ := to_raw_bones_ok mot_db rest (fun b' hb' => h b' (by simp [hb']))
    refine ⟨idx % 2 ^ 16 :: l, ?_⟩
    unfold to_raw_bones
    rw [hidx, hl]
    rfl

/-- The main induction for the amended C2: if every id in `ids` resolves, the
resolved names are strictly increasing and all dominate the names already in
`acc`, and the queue holds exactly the tracks the ids consume, then the
qualification loop succeeds, drains the queue, appends the new entries in file
order, and the final map flattens back to the accumulated tracks. -/
theorem from_raw_loop_spec (mot_db : MotionSetDatabase) (skel : List DbBone) :
    ∀ (ids : List Nat) (q : List FrameData) (acc : AnimMap),
    (∀ id ∈ ids, (resolve_bone mot_db skel id).isSome) →
    ((ids.map (resolved_name mot_db skel)).Pairwise (fun a b => strLt a b = true)) →
    (∀ p ∈ acc, ∀ id ∈ ids, strLt p.1.name (resolved_name mot_db skel id) = true) →
    (∀ p ∈ acc, p.1.name ∈ mot_db.bones) →
    (tracks_needed mot_db skel ids = q.length) →
    ∃ anims, from_raw_loop mot_db skel ids (q, acc) = .ok ([], anims) ∧
      to_raw_sets anims = to_raw_sets acc ++ q ∧
      (∀ p ∈ anims, p.1.name ∈ mot_db.bones)
  | [], q, acc, _, _, _, hmem, hlen => by
    have hq : q = [] := by
      have h0 : q.length = 0 := by simpa [tracks_needed] using hlen.symm
      exact List.length_eq_zero.mp h0
    subst hq
    exact ⟨acc, rfl, by simp, hmem⟩
  | id :: ids, q, acc, hres, hinc, hacc, hmem, hlen => by
    obtain ⟨b, hb⟩ := Option.isSome_iff_exists.mp (hres id (by simp))
    obtain ⟨name, hg, -, hn⟩ := resolve_bone_elim hb
    have hname_mem : b.name ∈ mot_db.bones := hn ▸ List.get?_mem hg
    have hgroups : tracks_needed mot_db skel (id :: ids)
        = 3 * b.mode.groups + tracks_needed mot_db skel ids := by
      simp [tracks_needed, hb]
    have hqlen : 3 * b.mode.groups ≤ q.length := by omega
    obtain ⟨a, hcons, hflat⟩ := consume_bone_spec b q acc hqlen
    have hrn : resolved_name mot_db skel id = b.name := by simp [resolved_name, hb]
    have hins : AnimMap.insert b (some a) acc = acc ++ [(b, some a)] :=
      insert_append_of_lt acc b (some a) (fun p hp => by
        have := hacc p hp id (by simp)
        rwa [hrn] at this)
    simp only [List.map_cons, List.pairwise_cons] at hinc
    have hhead := hinc.1
    have hinc' := hinc.2
    have hres' : ∀ i ∈ ids, (resolve_bone mot_db skel i).isSome :=
      fun i hi => hres i (by simp [hi])
    have hacc' : ∀ p ∈ acc ++ [(b, some a)], ∀ i ∈ ids,
        strLt p.1.name (resolved_name mot_db skel i) = true := by
      intro p hp i hi
      rcases List.mem_append.mp hp with h1 | h2
      · exact hacc p h1 i (by simp [hi])
      · have hpb : p = (b, some a) := by simpa using h2
        subst hpb
        have := hhead (resolved_name mot_db skel i) (List.mem_map_of_mem _ hi)
        rwa [hrn] at this
    have hmem' : ∀ p ∈ acc ++ [(b, some a)], p.1.name ∈ mot_db.bones := by
      intro p hp
      rcases List.mem_append.mp hp with h1 | h2
      · exact hmem p h1
      · have hpb : p = (b, some a) := by simpa using h2
        subst hpb
        exact hname_mem
    have hlen' : tracks_needed mot_db skel ids = (q.drop (3 * b.mode.groups)).length := by
      simp only [List.length_drop]
      omega
    obtain ⟨anims, hloop, hsets, hanims_mem⟩ :=
      from_raw_loop_spec mot_db skel ids (q.drop (3 * b.mode.groups)) (acc ++ [(b, some a)])
        hres' hinc' hacc' hmem' hlen'
    refine ⟨anims, ?_, ?_, hanims_mem⟩
    · simp only [from_raw_loop, from_raw_step_resolved mot_db skel (q, acc) id b hb,
        hcons, hins]
      exact hloop
    · rw [hsets, to_raw_sets_append, to_raw_sets_cons_some]
      have hsingle : to_raw_sets ([] : AnimMap) = [] := rfl
      rw [hsingle, List.append_nil, hflat, List.append_assoc, List.take_append_drop]

/-- C2 as amended: `to_raw(from_raw(R, motDb, boneDb), motDb).sets = R.sets`
holds when every bone id of R resolves in both schemas, the resolved names
occur in strictly increasing name order (so the name-ordered anims map
preserves file order), and the resolved kinds consume exactly `|R.sets|`
tracks (so no leftover tracks are dropped). -/
theorem c2_roundtrip_amended (R : RawMotion) (mot_db : MotionSetDatabase)
    (bone_db : BoneDatabase) (sk : Skeleton) (tl : List Skeleton)
    (hsk : bone_db.skeletons = sk :: tl)
    (hres : ∀ id ∈ R.bones, (resolve_bone mot_db sk.bones id).isSome)
    (hinc : (R.bones.map (resolved_name mot_db sk.bones)).Pairwise
      (fun a b => strLt a b = true))
    (hlen : tracks_needed mot_db sk.bones R.bones = R.sets.length) :
    ∃ m r, Motion.from_raw R mot_db bone_db = .ok m ∧
      m.to_raw mot_db = .ok r ∧ r.sets = R.sets := by
  obtain ⟨anims, hloop, hsets, hmem⟩ := from_raw_loop_spec mot_db sk.bones R.bones R.sets []
    hres hinc (by simp) (by simp) hlen
  obtain ⟨l, hl⟩ := to_raw_bones_ok mot_db (anims.map Prod.fst) (by
    intro b hb
    obtain ⟨p, hp, rfl⟩ := List.mem_map.mp hb
    exact hmem p hp)
  refine ⟨⟨R.frames, anims⟩, ⟨to_raw_sets anims, l, 0⟩, ?_, ?_, ?_⟩
  · unfold Motion.from_raw
    simp only [hsk, hloop]
  · unfold Motion.to_raw
    simp only [hl]
  · simpa using hsets

/-- Witness for the amended C2: two resolving bones already in name order
("aa" then "zz", kinds Rotation), six tracks, exact consumption. -/
theorem c2_roundtrip_amended_witness :
    ∃ m r, Motion.from_raw ⟨[.Pose 0, .Pose 1, .Pose 2, .Pose 3, .Pose 4, .Pose 5], [1, 0], 0⟩
        ⟨["zz", "aa"]⟩ ⟨[⟨[⟨"zz", .Rotation⟩, ⟨"aa", .Rotation⟩]⟩]⟩ = .ok m ∧
      m.to_raw ⟨["zz", "aa"]⟩ = .ok r ∧
      r.sets = (RawMotion.mk [.Pose 0, .Pose 1, .Pose 2, .Pose 3, .Pose 4, .Pose 5] [1, 0] 0).sets :=
  c2_roundtrip_amended ⟨[.Pose 0, .Pose 1, .Pose 2, .Pose 3, .Pose 4, .Pose 5], [1, 0], 0⟩
    ⟨["zz", "aa"]⟩ ⟨[⟨[⟨"zz", .Rotation⟩, ⟨"aa", .Rotation⟩]⟩]⟩
    ⟨[⟨"zz", .Rotation⟩, ⟨"aa", .Rotation⟩]⟩ [] rfl (by decide) (by decide) (by decide)

theorem u16_bytes_length (v : Nat) : (u16_bytes v).length = 2 := rfl

theorem u32_bytes_length (v : Nat) : (u32_bytes v).length = 4 := rfl

theorem fromLeBytes_u16 (v : Nat) : fromLeBytes (u16_bytes v) = v % 2 ^ 16 := by
  simp [fromLeBytes, u16_bytes]
  omega

theorem fromLeBytes_u32 (v : Nat) : fromLeBytes (u32_bytes v) = v % 2 ^ 32 := by
  simp [fromLeBytes, u32_bytes]
  omega

theorem reader_split (w : Nat) (dec : List Nat → α) {a : List Nat} (r : List Nat)
    (ha : a.length = w) : intReader w dec (a ++ r) = .ok (r, dec a) := by
  subst ha
  have h := (intReader_spec a.length dec (a ++ r)).2 (by simp)
  rwa [List.drop_left, List.take_left] at h

theorem le_u16_bytes (v : Nat) (r : List Nat) :
    le_u16 (u16_bytes v ++ r) = .ok (r, v % 2 ^ 16) := by
  rw [show le_u16 (u16_bytes v ++ r) = intReader 2 fromLeBytes (u16_bytes v ++ r) from rfl,
    reader_split 2 fromLeBytes r (u16_bytes_length v), fromLeBytes_u16]

theorem le_u32_bytes (v : Nat) (r : List Nat) :
    le_u32 (u32_bytes v ++ r) = .ok (r, v % 2 ^ 32) := by
  rw [show le_u32 (u32_bytes v ++ r) = intReader 4 fromLeBytes (u32_bytes v ++ r) from rfl,
    reader_split 4 fromLeBytes r (u32_bytes_length v), fromLeBytes_u32]

theorem le_f32_bytes (v : Nat) (r : List Nat) :
    le_f32 (u32_bytes v ++ r) = .ok (r, v % 2 ^ 32) := by
  rw [show le_f32 (u32_bytes v ++ r) = intReader 4 fromLeBytes (u32_bytes v ++ r) from rfl,
    reader_split 4 fromLeBytes r (u32_bytes_length v), fromLeBytes_u32]

theorem count_u16_flatten : ∀ (vs : List Nat) (r : List Nat), (∀ v ∈ vs, v < 2 ^ 16) →
    count vs.length le_u16 ((vs.map u16_bytes).flatten ++ r) = .ok (r, vs)
  | [], r, _ => rfl
  | v :: vs, r, h => by
    have hv : v < 2 ^ 16 := h v (by simp)
    have ih := count_u16_flatten vs r (fun v hv2 => h v (by simp [hv2]))
    simp only [List.map_cons, List.flatten_cons, List.length_cons, List.append_assoc]
    rw [count, le_u16_bytes, Nat.mod_eq_of_lt hv]
    show Except.map (fun p => (p.1, v :: p.2))
      (count vs.length le_u16 ((vs.map u16_bytes).flatten ++ r)) = .ok (r, v :: vs)
    rw [ih]
    rfl

theorem count_f32_flatten : ∀ (vs : List Nat) (r : List Nat), (∀ v ∈ vs, v < 2 ^ 32) →
    count vs.length le_f32 ((vs.map u32_bytes).flatten ++ r) = .ok (r, vs)
  | [], r, _ => rfl
  | v :: vs, r, h => by
    have hv : v < 2 ^ 32 := h v (by simp)
    have ih := count_f32_flatten vs r (fun v hv2 => h v (by simp [hv2]))
    simp only [List.map_cons, List.flatten_cons, List.length_cons, List.append_assoc]
    rw [count, le_f32_bytes, Nat.mod_eq_of_lt hv]
    show Except.map (fun p => (p.1, v :: p.2))
      (count vs.length le_f32 ((vs.map u32_bytes).flatten ++ r)) = .ok (r, vs.cons v)
    rw [ih]
    rfl

theorem pair_f32_bytes (a b : Nat) (r : List Nat) (ha : a < 2 ^ 32) (hb : b < 2 ^ 32) :
    pair le_f32 le_f32 (u32_bytes a ++ (u32_bytes b ++ r)) = .ok (r, (a, b)) := by
  rw [pair, le_f32_bytes]
  show Except.map (fun p => (p.1, (a % 2 ^ 32, p.2))) (le_f32 (u32_bytes b ++ r)) = _
  rw [le_f32_bytes]
  simp [Except.map, Nat.mod_eq_of_lt ha, Nat.mod_eq_of_lt hb]
  omega

theorem count_pair_f32 : ∀ (vs : List (Nat × Nat)) (r : List Nat),
    (∀ v ∈ vs, v.1 < 2 ^ 32 ∧ v.2 < 2 ^ 32) →
    count vs.length (pair le_f32 le_f32)
      ((vs.map (fun kv => u32_bytes kv.1 ++ u32_bytes kv.2)).flatten ++ r) = .ok (r, vs)
  | [], r, _ => rfl
  | v :: vs, r, h => by
    have hv := h v (by simp)
    have ih := count_pair_f32 vs r (fun v hv2 => h v (by simp [hv2]))
    simp only [List.map_cons, List.flatten_cons, List.length_cons, List.append_assoc]
    rw [count, pair_f32_bytes v.1 v.2 _ hv.1 hv.2]
    show Except.map (fun p => (p.1, (v.1, v.2) :: p.2))
      (count vs.length (pair le_f32 le_f32)
        ((vs.map (fun kv => u32_bytes kv.1 ++ u32_bytes kv.2)).flatten ++ r)) = .ok (r, v :: vs)
    rw [ih]
    rfl

theorem count_parse_helper_split : ∀ (bs : List Nat) (r : List Nat),
    count_parse_helper bs.length (bs ++ r) = some (r, bs.map SetType.parse)
  | [], r => rfl
  | b :: bs, r => by
    simp [count_parse_helper, SetType.parse_helper, count_parse_helper_split bs r]

theorem parse_as_byte_full (a b c d : SetType) :
    SetType.parse (SetType.as_byte [a, b, c, d]) = [a, b, c, d] := by
  cases a <;> cases b <;> cases c <;> cases d <;> decide

theorem parse_as_byte_one (a : SetType) :
    (SetType.parse (SetType.as_byte [a])).take 1 = [a] := by
  cases a <;> decide

theorem parse_as_byte_two (a b : SetType) :
    (SetType.parse (SetType.as_byte [a, b])).take 2 = [a, b] := by
  cases a <;> cases b <;> decide

theorem parse_as_byte_three (a b c : SetType) :
    (SetType.parse (SetType.as_byte [a, b, c])).take 3 = [a, b, c] := by
  cases a <;> cases b <;> cases c <;> decide

/-- Tag codec round-trip: unpacking the packed tag bytes and truncating to the
track count restores the tag list. -/
theorem tags_roundtrip : ∀ tys : List SetType,
    (((SetType.as_bytes tys).map SetType.parse).flatten).take tys.length = tys
  | [] => rfl
  | [a] => by simpa [SetType.as_bytes, chunks4] using parse_as_byte_one a
  | [a, b] => by simpa [SetType.as_bytes, chunks4] using parse_as_byte_two a b
  | [a, b, c] => by simpa [SetType.as_bytes, chunks4] using parse_as_byte_three a b c
  | a :: b :: c :: d :: rest => by
    have ih := tags_roundtrip rest
    simp only [SetType.as_bytes, chunks4, List.map_cons, List.flatten_cons]
    rw [parse_as_byte_full]
    have hlen : (a :: b :: c :: d :: rest).length = ([a, b, c, d] : List SetType).length
        + rest.length := by
      simp
      omega
    rw [hlen, List.take_append rest.length]
    rw [show ((chunks4 rest).map SetType.as_byte) = SetType.as_bytes rest from rfl, ih]
    rfl

theorem as_bytes_length (tys : List SetType) :
    (SetType.as_bytes tys).length = (tys.length + 3) / 4 := by
  rw [SetType.as_bytes, List.length_map, chunks4_length]

theorem and_mask_14 {c : Nat} (h : c < 0x4000) : c &&& 0x3FFF = c := by
  have h2 : (0x3FFF : Nat) = 2 ^ 14 - 1 := by norm_num
  rw [h2, Nat.and_pow_two_sub_one_eq_mod]
  omega

theorem flatten_map_length (c : Nat) (f : α → List Nat) (h : ∀ x, (f x).length = c) :
    ∀ l : List α, ((l.map f).flatten).length = c * l.length
  | [] => by simp
  | x :: l => by
    simp [flatten_map_length c f h l, h x]
    ring

theorem frame_write_catmul_eq (ks : List (Keyframe Unit)) (pos : Nat) :
    FrameData.write pos (.CatmulRom ks)
      = u16_bytes ks.length ++ ((ks.map (fun k => u16_bytes k.frame)).flatten
        ++ (List.replicate ((pos + (2 + 2 * ks.length)) % 4) 0
        ++ (ks.map (fun k : Keyframe Unit => u32_bytes k.value)).flatten)) := by
  have hhl : (u16_bytes ks.length ++ (ks.map (fun k => u16_bytes k.frame)).flatten).length
      = 2 + 2 * ks.length := by
    simp [flatten_map_length 2 (fun k : Keyframe Unit => u16_bytes k.frame) (fun _ => rfl) ks,
      u16_bytes_length]
  simp only [FrameData.write, hhl, List.append_assoc]

theorem frame_write_hermite_eq (ks : List (Keyframe Nat)) (pos : Nat) :
    FrameData.write pos (.Hermite ks)
      = u16_bytes ks.length ++ ((ks.map (fun k => u16_bytes k.frame)).flatten
        ++ (List.replicate ((pos + (2 + 2 * ks.length)) % 4) 0
        ++ (ks.map (fun k : Keyframe Nat => u32_bytes k.value ++ u32_bytes k.interpolation)).flatten)) := by
  have hhl : (u16_bytes ks.length ++ (ks.map (fun k => u16_bytes k.frame)).flatten).length
      = 2 + 2 * ks.length := by
    simp [flatten_map_length 2 (fun k : Keyframe Nat => u16_bytes k.frame) (fun _ => rfl) ks,
      u16_bytes_length]
  simp only [FrameData.write, hhl, List.append_assoc]

theorem frame_write_catmul_length (ks : List (Keyframe Unit)) (pos : Nat) :
    (FrameData.write pos (.CatmulRom ks)).length
      = 2 + 2 * ks.length + (pos + (2 + 2 * ks.length)) % 4 + 4 * ks.length := by
  rw [frame_write_catmul_eq]
  simp [flatten_map_length 2 (fun k : Keyframe Unit => u16_bytes k.frame) (fun _ => rfl) ks,
    flatten_map_length 4 (fun k : Keyframe Unit => u32_bytes k.value) (fun _ => rfl) ks,
    u16_bytes_length]
  omega

theorem frame_write_hermite_length (ks : List (Keyframe Nat)) (pos : Nat) :
    (FrameData.write pos (.Hermite ks)).length
      = 2 + 2 * ks.length + (pos + (2 + 2 * ks.length)) % 4 + 8 * ks.length := by
  rw [frame_write_hermite_eq]
  simp [flatten_map_length 2 (fun k : Keyframe Nat => u16_bytes k.frame) (fun _ => rfl) ks,
    flatten_map_length 8
      (fun k : Keyframe Nat => u32_bytes k.value ++ u32_bytes k.interpolation)
      (fun _ => rfl) ks,
    u16_bytes_length]
  omega

theorem frame_write_even (s : FrameData) (pos : Nat) (hp : pos % 2 = 0) :
    (FrameData.write pos s).length % 2 = 0 := by
  cases s with
  | None => rfl
  | Pose v => simp [FrameData.write, u32_bytes]
  | CatmulRom ks => rw [frame_write_catmul_length]; omega
  | Hermite ks => rw [frame_write_hermite_length]; omega

theorem zip_rebuild_u : ∀ ks : List (Keyframe Unit),
    (((ks.map (fun k => k.frame)).zip (ks.map (fun k => k.value))).map
      (fun p => (⟨p.1, p.2, ()⟩ : Keyframe Unit))) = ks
  | [] => rfl
  | k :: ks => by
    simp only [List.map_cons, List.zip_cons_cons, zip_rebuild_u ks]

theorem zip_rebuild_h : ∀ ks : List (Keyframe Nat),
    (((ks.map (fun k => k.frame)).zip (ks.map (fun k => (k.value, k.interpolation)))).map
      (fun p => (⟨p.1, p.2.1, p.2.2⟩ : Keyframe Nat))) = ks
  | [] => rfl
  | k :: ks => by
    simp only [List.map_cons, List.zip_cons_cons, zip_rebuild_h ks]

theorem drop_replicate_append : ∀ (n : Nat) (x : Nat) (l : List Nat),
    List.drop n (List.replicate n x ++ l) = l
  | 0, _, _ => rfl
  | n + 1, x, l => by
    simp only [List.replicate_succ, List.cons_append, List.drop_succ_cons]
    exact drop_replicate_append n x l

theorem keyframe_parseU_write (ks : List (Keyframe Unit)) (pos L : Nat) (r : List Nat)
    (hlen16 : ks.length < 2 ^ 16)
    (hks : ∀ k ∈ ks, k.frame < 2 ^ 16 ∧ k.value < 2 ^ 32)
    (hp : pos % 2 = 0) (hL : L % 4 = 0)
    (hlen : pos + (FrameData.write pos (.CatmulRom ks)).length + r.length = L) :
    Keyframe.parseU (FrameData.write pos (.CatmulRom ks) ++ r) = .ok (r, ks) := by
  rw [frame_write_catmul_length] at hlen
  rw [frame_write_catmul_eq, List.append_assoc, List.append_assoc, List.append_assoc]
  have hcf : count ks.length le_u16 ((ks.map (fun k => u16_bytes k.frame)).flatten
      ++ (List.replicate ((pos + (2 + 2 * ks.length)) % 4) 0
        ++ ((ks.map (fun k : Keyframe Unit => u32_bytes k.value)).flatten ++ r)))
      = .ok (List.replicate ((pos + (2 + 2 * ks.length)) % 4) 0
        ++ ((ks.map (fun k : Keyframe Unit => u32_bytes k.value)).flatten ++ r), ks.map (fun k => k.frame)) := by
    have h0 := count_u16_flatten (ks.map (fun k => k.frame))
      (List.replicate ((pos + (2 + 2 * ks.length)) % 4) 0
        ++ ((ks.map (fun k : Keyframe Unit => u32_bytes k.value)).flatten ++ r))
      (fun v hv => by
        obtain ⟨k, hk, rfl⟩ := List.mem_map.mp hv
        exact (hks k hk).1)
    simpa [List.map_map, Function.comp] using h0
  have hskip : (List.replicate ((pos + (2 + 2 * ks.length)) % 4) 0
      ++ ((ks.map (fun k : Keyframe Unit => u32_bytes k.value)).flatten ++ r)).length % 4
      = (pos + (2 + 2 * ks.length)) % 4 := by
    have hv4 : ((ks.map (fun k : Keyframe Unit => u32_bytes k.value)).flatten).length = 4 * ks.length :=
      flatten_map_length 4 (fun k : Keyframe Unit => u32_bytes k.value) (fun _ => rfl) ks
    simp only [List.length_append, List.length_replicate, hv4]
    omega
  have hdrop : List.drop ((pos + (2 + 2 * ks.length)) % 4)
      (List.replicate ((pos + (2 + 2 * ks.length)) % 4) (0 : Nat)
        ++ ((ks.map (fun k : Keyframe Unit => u32_bytes k.value)).flatten ++ r))
      = (ks.map (fun k : Keyframe Unit => u32_bytes k.value)).flatten ++ r :=
    drop_replicate_append _ 0 _
  have hcv : count ks.length le_f32 ((ks.map (fun k : Keyframe Unit => u32_bytes k.value)).flatten ++ r)
      = .ok (r, ks.map (fun k => k.value)) := by
    have h0 := count_f32_flatten (ks.map (fun k => k.value)) r
      (fun v hv => by
        obtain ⟨k, hk, rfl⟩ := List.mem_map.mp hv
        exact (hks k hk).2)
    simpa [List.map_map, Function.comp] using h0
  unfold Keyframe.parseU
  simp only [le_u16_bytes, Nat.mod_eq_of_lt hlen16, hcf, hskip, hdrop, hcv, zip_rebuild_u]

theorem keyframe_parseH_write (ks : List (Keyframe Nat)) (pos L : Nat) (r : List Nat)
    (hlen16 : ks.length < 2 ^ 16)
    (hks : ∀ k ∈ ks, k.frame < 2 ^ 16 ∧ k.value < 2 ^ 32 ∧ k.interpolation < 2 ^ 32)
    (hp : pos % 2 = 0) (hL : L % 4 = 0)
    (hlen : pos + (FrameData.write pos (.Hermite ks)).length + r.length = L) :
    Keyframe.parseH (FrameData.write pos (.Hermite ks) ++ r) = .ok (r, ks) := by
  rw [frame_write_hermite_length] at hlen
  rw [frame_write_hermite_eq, List.append_assoc, List.append_assoc, List.append_assoc]
  have hcf : count ks.length le_u16 ((ks.map (fun k => u16_bytes k.frame)).flatten
      ++ (List.replicate ((pos + (2 + 2 * ks.length)) % 4) 0
        ++ ((ks.map (fun k : Keyframe Nat => u32_bytes k.value ++ u32_bytes k.interpolation)).flatten ++ r)))
      = .ok (List.replicate ((pos + (2 + 2 * ks.length)) % 4) 0
        ++ ((ks.map (fun k : Keyframe Nat => u32_bytes k.value ++ u32_bytes k.interpolation)).flatten ++ r),
        ks.map (fun k => k.frame)) := by
    have h0 := count_u16_flatten (ks.map (fun k => k.frame))
      (List.replicate ((pos + (2 + 2 * ks.length)) % 4) 0
        ++ ((ks.map (fun k : Keyframe Nat => u32_bytes k.value ++ u32_bytes k.interpolation)).flatten ++ r))
      (fun v hv => by
        obtain ⟨k, hk, rfl⟩ := List.mem_map.mp hv
        exact (hks k hk).1)
    simpa [List.map_map, Function.comp] using h0
  have hskip : (List.replicate ((pos + (2 + 2 * ks.length)) % 4) 0
      ++ ((ks.map (fun k : Keyframe Nat => u32_bytes k.value ++ u32_bytes k.interpolation)).flatten ++ r)).length % 4
      = (pos + (2 + 2 * ks.length)) % 4 := by
    have hv8 : ((ks.map (fun k : Keyframe Nat => u32_bytes k.value ++ u32_bytes k.interpolation)).flatten).length
        = 8 * ks.length :=
      flatten_map_length 8
        (fun k : Keyframe Nat => u32_bytes k.value ++ u32_bytes k.interpolation)
        (fun _ => rfl) ks
    simp only [List.length_append, List.length_replicate, hv8]
    omega
  have hdrop : List.drop ((pos + (2 + 2 * ks.length)) % 4)
      (List.replicate ((pos + (2 + 2 * ks.length)) % 4) (0 : Nat)
        ++ ((ks.map (fun k : Keyframe Nat => u32_bytes k.value ++ u32_bytes k.interpolation)).flatten ++ r))
      = (ks.map (fun k : Keyframe Nat => u32_bytes k.value ++ u32_bytes k.interpolation)).flatten ++ r :=
    drop_replicate_append _ 0 _
  have hcv : count ks.length (pair le_f32 le_f32)
      ((ks.map (fun k : Keyframe Nat => u32_bytes k.value ++ u32_bytes k.interpolation)).flatten ++ r)
      = .ok (r, ks.map (fun k => (k.value, k.interpolation))) := by
    have h0 := count_pair_f32 (ks.map (fun k => (k.value, k.interpolation))) r
      (fun v hv => by
        obtain ⟨k, hk, rfl⟩ := List.mem_map.mp hv
        exact ⟨(hks k hk).2.1, (hks k hk).2.2⟩)
    simpa [List.map_map, Function.comp] using h0
  unfold Keyframe.parseH
  simp only [le_u16_bytes, Nat.mod_eq_of_lt hlen16, hcf, hskip, hdrop, hcv, zip_rebuild_h]

/-- One track round-trip: parsing a written track (with the tag computed from
the data) at an even absolute position, in a file of length divisible by 4,
returns exactly the original track and the untouched rest. -/
theorem frame_parse_write (s : FrameData) (pos L : Nat) (r : List Nat)
    (hwf : s.wf) (hp : pos % 2 = 0) (hL : L % 4 = 0)
    (hlen : pos + (FrameData.write pos s).length + r.length = L) :
    FrameData.parse (SetType.from_frame_data s) (FrameData.write pos s ++ r) = .ok (r, s) := by
  cases s with
  | None => rfl
  | Pose v =>
    have hv : v < 2 ^ 32 := hwf
    show pmap le_f32 FrameData.Pose (u32_bytes v ++ r) = .ok (r, .Pose v)
    rw [pmap, le_f32_bytes]
    simp [Except.map, Nat.mod_eq_of_lt hv]
    omega
  | CatmulRom ks =>
    show pmap Keyframe.parseU FrameData.CatmulRom _ = _
    rw [pmap, keyframe_parseU_write ks pos L r hwf.1 hwf.2 hp hL hlen]
    rfl
  | Hermite ks =>
    show pmap Keyframe.parseH FrameData.Hermite _ = _
    rw [pmap, keyframe_parseH_write ks pos L r hwf.1 hwf.2 hp hL hlen]
    rfl

/-- The whole track region round-trips: `parse_sets` over the written tracks
restores the original list and stops exactly at the rest. -/
theorem parse_sets_write (L : Nat) (hL : L % 4 = 0) :
    ∀ (sets : List FrameData) (j pos : Nat) (r : List Nat),
    (∀ s ∈ sets, s.wf) → pos % 2 = 0 →
    pos + (write_sets pos sets).length + r.length = L →
    parse_sets L j (sets.map SetType.from_frame_data) (write_sets pos sets ++ r)
      = .ok (r, sets)
  | [], _, _, r, _, _, _ => rfl
  | s :: sets, j, pos, r, hwf, hp, hlen => by
    have hws : (write_sets pos (s :: sets)).length
        = (FrameData.write pos s).length
          + (write_sets (pos + (FrameData.write pos s).length) sets).length := by
      simp [write_sets]
    have hone : FrameData.parse (SetType.from_frame_data s)
        (FrameData.write pos s ++ (write_sets (pos + (FrameData.write pos s).length) sets ++ r))
        = .ok (write_sets (pos + (FrameData.write pos s).length) sets ++ r, s) :=
      frame_parse_write s pos L _ (hwf s (by simp)) hp hL (by
        simp only [List.length_append]
        omega)
    have ih := parse_sets_write L hL sets (j + 1) (pos + (FrameData.write pos s).length) r
      (fun s hs => hwf s (by simp [hs]))
      (by
        have := frame_write_even s pos hp
        omega)
      (by omega)
    simp only [write_sets, List.map_cons, List.append_assoc]
    rw [parse_sets]
    simp only [hone]
    rw [ih]
    rfl

theorem count_eq_one_split {l : List Nat} (h : l.count 0 = 1) :
    ∃ pre suf, l = pre ++ 0 :: suf ∧ (∀ x ∈ pre, x ≠ 0) ∧ (∀ x ∈ suf, x ≠ 0) := by
  induction l with
  | nil => simp at h
  | cons a l ih =>
    by_cases ha : a = 0
    · subst ha
      have hc : l.count 0 = 0 := by
        rw [List.count_cons] at h
        simp at h
        omega
      refine ⟨[], l, rfl, by simp, ?_⟩
      intro x hx hx0
      subst hx0
      exact absurd hx (List.count_eq_zero.mp hc)
    · have hc : l.count 0 = 1 := by
        rw [List.count_cons] at h
        simp [ha] at h
        omega
      obtain ⟨pre, suf, rfl, hpre, hsuf⟩ := ih hc
      refine ⟨a :: pre, suf, rfl, ?_, hsuf⟩
      intro x hx
      rcases List.mem_cons.mp hx with rfl | hx2
      · exact ha
      · exact hpre x hx2

theorem many_till_skip_nonzero : ∀ (ids : List Nat) (occ : Nat) (r : List Nat),
    (∀ b ∈ ids, b < 2 ^ 16 ∧ b ≠ 0) →
    many_till_nth_u16 0 1 occ ((ids.map u16_bytes).flatten ++ r)
      = (many_till_nth_u16 0 1 occ r).map (fun l => ids ++ l)
  | [], occ, r, _ => by
    simp only [List.map_nil, List.flatten_nil, List.nil_append]
    cases many_till_nth_u16 0 1 occ r <;> simp [Except.map]
  | id :: ids, occ, r, h => by
    have hid := h id (by simp)
    rw [List.map_cons, List.flatten_cons, List.append_assoc, many_till_nth_u16_eq_source]
    simp only [le_u16_bytes, Nat.mod_eq_of_lt hid.1]
    rw [if_neg hid.2]
    rw [many_till_skip_nonzero ids occ r (fun b hb => h b (by simp [hb]))]
    cases many_till_nth_u16 0 1 occ r <;> simp [Except.map]

/-- Reading the written bone region: one id equal to zero somewhere in the
list, the writer's single terminating zero as the second sentinel, and the
loop stops exactly there, returning the original ids. -/
theorem bones_read (bones : List Nat) (r : List Nat)
    (hbound : ∀ b ∈ bones, b < 2 ^ 16) (hcount : bones.count 0 = 1) :
    many_till_nth_u16 0 1 0 ((bones.map u16_bytes).flatten ++ ([0, 0] ++ r))
      = .ok bones := by
  obtain ⟨pre, suf, heq, hpre, hsuf⟩ := count_eq_one_split hcount
  subst heq
  rw [List.map_append, List.flatten_append, List.append_assoc]
  rw [many_till_skip_nonzero pre 0 _
    (fun b hb => ⟨hbound b (by simp [hb]), hpre b hb⟩)]
  rw [List.map_cons, List.flatten_cons, List.append_assoc]
  rw [show (u16_bytes 0 : List Nat) = [0, 0] from rfl]
  rw [show ([0, 0] ++ ((suf.map u16_bytes).flatten ++ ([0, 0] ++ r)))
      = u16_bytes 0 ++ ((suf.map u16_bytes).flatten ++ ([0, 0] ++ r)) from rfl]
  rw [many_till_nth_u16_eq_source]
  simp only [le_u16_bytes, Nat.zero_mod, eq_self_iff_true]
  rw [if_pos trivial, if_pos (by omega)]
  rw [many_till_skip_nonzero suf 1 _
    (fun b hb => ⟨hbound b (by simp [hb]), hsuf b hb⟩)]
  rw [show ([0, 0] ++ r : List Nat) = u16_bytes 0 ++ r from rfl,
    many_till_nth_u16_eq_source]
  simp only [le_u16_bytes, Nat.zero_mod, eq_self_iff_true]
  rw [if_pos trivial, if_neg (by omega)]
  simp [Except.map]

theorem raw_write_body (m : RawMotion) (p : Nat) :
    (RawMotion.write p m).1
      = (u16_bytes m.sets.length ++ u16_bytes m.frames)
        ++ ((SetType.as_bytes (m.sets.map SetType.from_frame_data)
            ++ List.replicate
              ((p + 4 + (SetType.as_bytes (m.sets.map SetType.from_frame_data)).length) % 4) 0)
          ++ (write_sets (RawMotion.write p m).2.1 m.sets
            ++ ((m.bones.map u16_bytes).flatten ++ [0, 0]))) := by
  simp only [RawMotion.write]
  simp [List.append_assoc]

theorem raw_write_setoff (m : RawMotion) (p : Nat) :
    (RawMotion.write p m).2.1
      = p + 4 + (SetType.as_bytes (m.sets.map SetType.from_frame_data)).length
        + (p + 4 + (SetType.as_bytes (m.sets.map SetType.from_frame_data)).length) % 4 := by
  simp only [RawMotion.write]
  simp [List.length_append, List.length_replicate]
  omega

theorem raw_write_boneoff (m : RawMotion) (p : Nat) :
    (RawMotion.write p m).2.2
      = (RawMotion.write p m).2.1 + (write_sets (RawMotion.write p m).2.1 m.sets).length := by
  simp only [RawMotion.write]

theorem raw_write_length (m : RawMotion) (p : Nat) :
    (RawMotion.write p m).1.length
      = 4 + (SetType.as_bytes (m.sets.map SetType.from_frame_data)).length
        + (p + 4 + (SetType.as_bytes (m.sets.map SetType.from_frame_data)).length) % 4
        + (write_sets (RawMotion.write p m).2.1 m.sets).length
        + (2 * m.bones.length + 2) := by
  rw [raw_write_body]
  simp [flatten_map_length 2 u16_bytes (fun _ => rfl) m.bones, u16_bytes_length]
  omega

theorem write_sets_even : ∀ (sets : List FrameData) (pos : Nat), pos % 2 = 0 →
    (write_sets pos sets).length % 2 = 0
  | [], _, _ => rfl
  | s :: sets, pos, hp => by
    simp only [write_sets, List.length_append]
    have h1 := frame_write_even s pos hp
    have h2 := write_sets_even sets (pos + (FrameData.write pos s).length) (by omega)
    omega

theorem raw_write_setoff_even (m : RawMotion) (p : Nat) :
    (RawMotion.write p m).2.1 % 2 = 0 := by
  rw [raw_write_setoff]
  omega

theorem raw_write_body_even (m : RawMotion) (p : Nat) (hp : p % 2 = 0) :
    (RawMotion.write p m).1.length % 2 = 0 := by
  rw [raw_write_length]
  have h1 := write_sets_even m.sets ((RawMotion.write p m).2.1) (raw_write_setoff_even m p)
  omega

theorem drop_prefix_append {α : Type} {a : List α} {n : Nat} (b : List α) (h : a.length = n) :
    (a ++ b).drop n = b := by
  subst h
  exact List.drop_left a b

/-- One written motion body parses back to the original motion: the header
fields are the ones the writer reported, the surrounding file is arbitrary
(`pre`/`post`), the motion is well-formed, the body starts at an even offset
and the file length is divisible by 4. -/
theorem motion_parse_write (m : RawMotion) (p : Nat) (pre post : List Nat)
    (hwf : m.wf) (hp : pre.length = p) (hpe : p % 2 = 0)
    (hL4 : (pre ++ ((RawMotion.write p m).1 ++ post)).length % 4 = 0) :
    RawMotion.parse (pre ++ ((RawMotion.write p m).1 ++ post))
      ⟨p, p + 4, (RawMotion.write p m).2.1, (RawMotion.write p m).2.2⟩
      = some (.ok m) := by
  obtain ⟨hc, hfr, hsw, hbw, hz⟩ := hwf
  have hse := raw_write_setoff m p
  have hbo := raw_write_boneoff m p
  have hblen := raw_write_length m p
  have hTlen : (SetType.as_bytes (m.sets.map SetType.from_frame_data)).length
      = (m.sets.length + 3) / 4 := by
    rw [as_bytes_length, List.length_map]
  have hWR : (pre ++ ((RawMotion.write p m).1 ++ post))
      = (pre ++ (u16_bytes m.sets.length ++ u16_bytes m.frames))
        ++ (SetType.as_bytes (m.sets.map SetType.from_frame_data)
          ++ (List.replicate
              ((p + 4 + (SetType.as_bytes (m.sets.map SetType.from_frame_data)).length) % 4) 0
            ++ (write_sets (RawMotion.write p m).2.1 m.sets
              ++ ((m.bones.map u16_bytes).flatten ++ ([0, 0] ++ post))))) := by
    rw [raw_write_body]
    simp [List.append_assoc]
  have hLlen : (pre ++ ((RawMotion.write p m).1 ++ post)).length
      = p + (RawMotion.write p m).1.length + post.length := by
    simp [List.length_append, hp]
    omega
  have hWlen : (write_sets (RawMotion.write p m).2.1 m.sets).length
      + (p + 4 + (SetType.as_bytes (m.sets.map SetType.from_frame_data)).length) % 4
      + (SetType.as_bytes (m.sets.map SetType.from_frame_data)).length + 4
      + (2 * m.bones.length + 2) = (RawMotion.write p m).1.length := by
    omega
  -- step 1: the info word
  have h_drop_p : (pre ++ ((RawMotion.write p m).1 ++ post)).drop p
      = (RawMotion.write p m).1 ++ post :=
    drop_prefix_append _ hp
  have h1 : read_at p (pair le_u16 le_u16) (pre ++ ((RawMotion.write p m).1 ++ post))
      = .ok ((SetType.as_bytes (m.sets.map SetType.from_frame_data)
          ++ (List.replicate
              ((p + 4 + (SetType.as_bytes (m.sets.map SetType.from_frame_data)).length) % 4) 0
            ++ (write_sets (RawMotion.write p m).2.1 m.sets
              ++ ((m.bones.map u16_bytes).flatten ++ ([0, 0] ++ post))))),
          (m.sets.length, m.frames)) := by
    unfold read_at
    rw [if_pos (by omega)]
    rw [h_drop_p]
    rw [show (RawMotion.write p m).1 ++ post
        = u16_bytes m.sets.length ++ (u16_bytes m.frames
          ++ (SetType.as_bytes (m.sets.map SetType.from_frame_data)
            ++ (List.replicate
                ((p + 4 + (SetType.as_bytes (m.sets.map SetType.from_frame_data)).length) % 4) 0
              ++ (write_sets (RawMotion.write p m).2.1 m.sets
                ++ ((m.bones.map u16_bytes).flatten ++ ([0, 0] ++ post)))))) from by
      rw [raw_write_body]
      simp [List.append_assoc]]
    rw [pair, le_u16_bytes]
    show Except.mapError ReadAtError.InternalParserError
      (Except.map _ (le_u16 (u16_bytes m.frames ++ _))) = _
    rw [le_u16_bytes]
    simp [Except.map, Except.mapError, Nat.mod_eq_of_lt hfr,
      Nat.mod_eq_of_lt (show m.sets.length < 2 ^ 16 by omega)]
    omega
  -- step 2: the tag array
  have h_drop_p4 : (pre ++ ((RawMotion.write p m).1 ++ post)).drop (p + 4)
      = SetType.as_bytes (m.sets.map SetType.from_frame_data)
        ++ (List.replicate
            ((p + 4 + (SetType.as_bytes (m.sets.map SetType.from_frame_data)).length) % 4) 0
          ++ (write_sets (RawMotion.write p m).2.1 m.sets
            ++ ((m.bones.map u16_bytes).flatten ++ ([0, 0] ++ post)))) := by
    rw [hWR]
    exact drop_prefix_append _ (by simp [hp, u16_bytes_length])
  have h2 : read_set_types (p + 4) ((m.sets.length + 3) / 4)
      (pre ++ ((RawMotion.write p m).1 ++ post))
      = some (.ok ((List.replicate
            ((p + 4 + (SetType.as_bytes (m.sets.map SetType.from_frame_data)).length) % 4) 0
          ++ (write_sets (RawMotion.write p m).2.1 m.sets
            ++ ((m.bones.map u16_bytes).flatten ++ ([0, 0] ++ post)))),
          (SetType.as_bytes (m.sets.map SetType.from_frame_data)).map SetType.parse)) := by
    unfold read_set_types
    rw [if_pos (by omega)]
    rw [h_drop_p4, ← hTlen]
    rw [count_parse_helper_split]
    rfl
  -- step 3: the set-type list feeding the track loop
  have h3 : (((SetType.as_bytes (m.sets.map SetType.from_frame_data)).map
        SetType.parse).flatten).take m.sets.length
      = m.sets.map SetType.from_frame_data := by
    have := tags_roundtrip (m.sets.map SetType.from_frame_data)
    rwa [List.length_map] at this
  -- step 4: the tracks
  have h_drop_se : (pre ++ ((RawMotion.write p m).1 ++ post)).drop ((RawMotion.write p m).2.1)
      = write_sets (RawMotion.write p m).2.1 m.sets
        ++ ((m.bones.map u16_bytes).flatten ++ ([0, 0] ++ post)) := by
    rw [hWR]
    rw [show (pre ++ (u16_bytes m.sets.length ++ u16_bytes m.frames))
        ++ (SetType.as_bytes (m.sets.map SetType.from_frame_data)
          ++ (List.replicate
              ((p + 4 + (SetType.as_bytes (m.sets.map SetType.from_frame_data)).length) % 4) 0
            ++ (write_sets (RawMotion.write p m).2.1 m.sets
              ++ ((m.bones.map u16_bytes).flatten ++ ([0, 0] ++ post)))))
      = ((pre ++ (u16_bytes m.sets.length ++ u16_bytes m.frames))
          ++ (SetType.as_bytes (m.sets.map SetType.from_frame_data)
            ++ List.replicate
              ((p + 4 + (SetType.as_bytes (m.sets.map SetType.from_frame_data)).length) % 4) 0))
        ++ (write_sets (RawMotion.write p m).2.1 m.sets
          ++ ((m.bones.map u16_bytes).flatten ++ ([0, 0] ++ post))) from by
      simp [List.append_assoc]]
    exact drop_prefix_append _ (by
      simp [hp, List.length_append, List.length_replicate, u16_bytes_length]
      omega)
  have h4 : parse_sets (pre ++ ((RawMotion.write p m).1 ++ post)).length 0
      (m.sets.map SetType.from_frame_data)
      ((pre ++ ((RawMotion.write p m).1 ++ post)).drop ((RawMotion.write p m).2.1))
      = .ok ((m.bones.map u16_bytes).flatten ++ ([0, 0] ++ post), m.sets) := by
    rw [h_drop_se]
    exact parse_sets_write _ hL4 m.sets 0 _ _ hsw (raw_write_setoff_even m p) (by
      have hfl : ((m.bones.map u16_bytes).flatten).length = 2 * m.bones.length :=
        flatten_map_length 2 u16_bytes (fun _ => rfl) m.bones
      simp only [List.length_append, List.length_cons, List.length_nil, hfl]
      omega)
  -- step 5: the bone ids
  have h_drop_bo : (pre ++ ((RawMotion.write p m).1 ++ post)).drop ((RawMotion.write p m).2.2)
      = (m.bones.map u16_bytes).flatten ++ ([0, 0] ++ post) := by
    rw [hWR]
    rw [show (pre ++ (u16_bytes m.sets.length ++ u16_bytes m.frames))
        ++ (SetType.as_bytes (m.sets.map SetType.from_frame_data)
          ++ (List.replicate
              ((p + 4 + (SetType.as_bytes (m.sets.map SetType.from_frame_data)).length) % 4) 0
            ++ (write_sets (RawMotion.write p m).2.1 m.sets
              ++ ((m.bones.map u16_bytes).flatten ++ ([0, 0] ++ post)))))
      = (((pre ++ (u16_bytes m.sets.length ++ u16_bytes m.frames))
          ++ (SetType.as_bytes (m.sets.map SetType.from_frame_data)
            ++ List.replicate
              ((p + 4 + (SetType.as_bytes (m.sets.map SetType.from_frame_data)).length) % 4) 0))
          ++ write_sets (RawMotion.write p m).2.1 m.sets)
        ++ ((m.bones.map u16_bytes).flatten ++ ([0, 0] ++ post)) from by
      simp [List.append_assoc]]
    exact drop_prefix_append _ (by
      simp [hp, List.length_append, List.length_replicate, u16_bytes_length]
      omega)
  have h5 : read_at ((RawMotion.write p m).2.2)
      (fun i => (many_till_nth_u16 0 1 0 i).map (fun l => (i, l)))
      (pre ++ ((RawMotion.write p m).1 ++ post))
      = .ok ((m.bones.map u16_bytes).flatten ++ ([0, 0] ++ post), m.bones) := by
    unfold read_at
    rw [if_pos (by omega)]
    simp only [h_drop_bo]
    rw [bones_read m.bones post hbw hz]
    rfl
  -- assemble
  unfold RawMotion.parse
  simp only [h1]
  rw [and_mask_14 hc]
  simp only [h2, h3]
  rw [if_pos (by omega)]
  simp only [h4, h5]

theorem header_parse_entry (st se bo : Nat) (r : List Nat)
    (h16 : 16 ≤ st) (hst : st + 4 < 2 ^ 32) (hsebound : se < 2 ^ 32) (hbobound : bo < 2 ^ 32) :
    HeaderOffsets.parse ((u32_bytes st ++ u32_bytes (st + 4) ++ u32_bytes se ++ u32_bytes bo) ++ r)
      = .ok (r, some ⟨st, st + 4, se, bo⟩) := by
  rw [show (u32_bytes st ++ u32_bytes (st + 4) ++ u32_bytes se ++ u32_bytes bo) ++ r
      = u32_bytes st ++ (u32_bytes (st + 4) ++ (u32_bytes se ++ (u32_bytes bo ++ r))) from by
    simp [List.append_assoc]]
  unfold HeaderOffsets.parse
  simp only [le_u32_bytes]
  rw [Nat.mod_eq_of_lt (by omega), Nat.mod_eq_of_lt hst, Nat.mod_eq_of_lt hsebound,
    Nat.mod_eq_of_lt hbobound]
  rw [if_neg (by rintro ⟨h1, -, -, -⟩; omega)]

theorem header_parse_zero (rest : List Nat) :
    HeaderOffsets.parse (List.replicate 16 0 ++ rest) = .ok (rest, none) := by
  rw [show (List.replicate 16 (0 : Nat) ++ rest)
      = u32_bytes 0 ++ (u32_bytes 0 ++ (u32_bytes 0 ++ (u32_bytes 0 ++ rest))) from rfl]
  unfold HeaderOffsets.parse
  simp only [le_u32_bytes, Nat.zero_mod]
  rw [if_pos (by simp)]

theorem headers_parse_chain : ∀ (infos : List (Nat × Nat × Nat)) (rest : List Nat),
    (∀ t ∈ infos, 16 ≤ t.1 ∧ t.1 + 4 < 2 ^ 32 ∧ t.2.1 < 2 ^ 32 ∧ t.2.2 < 2 ^ 32) →
    many_till_none_headers
      ((infos.map (fun t => u32_bytes t.1 ++ u32_bytes (t.1 + 4)
          ++ u32_bytes t.2.1 ++ u32_bytes t.2.2)).flatten
        ++ (List.replicate 16 0 ++ rest))
      = .ok (infos.map (fun t => ⟨t.1, t.1 + 4, t.2.1, t.2.2⟩))
  | [], rest, _ => by
    rw [List.map_nil, List.flatten_nil, List.nil_append, List.map_nil]
    exact many_till_none_headers_stop (by
      rw [header_parse_zero rest]
      rw [drop_prefix_append rest (by simp)])
  | t :: infos, rest, h => by
    have ht := h t (by simp)
    have ih := headers_parse_chain infos rest (fun t' ht' => h t' (by simp [ht']))
    rw [List.map_cons, List.flatten_cons, List.append_assoc, List.map_cons]
    have hp0 : HeaderOffsets.parse ((u32_bytes t.1 ++ u32_bytes (t.1 + 4)
        ++ u32_bytes t.2.1 ++ u32_bytes t.2.2)
        ++ ((infos.map (fun t : Nat × Nat × Nat => u32_bytes t.1 ++ u32_bytes (t.1 + 4)
          ++ u32_bytes t.2.1 ++ u32_bytes t.2.2)).flatten ++ (List.replicate 16 0 ++ rest)))
        = .ok (((u32_bytes t.1 ++ u32_bytes (t.1 + 4)
          ++ u32_bytes t.2.1 ++ u32_bytes t.2.2)
          ++ ((infos.map (fun t : Nat × Nat × Nat => u32_bytes t.1 ++ u32_bytes (t.1 + 4)
            ++ u32_bytes t.2.1 ++ u32_bytes t.2.2)).flatten
              ++ (List.replicate 16 0 ++ rest))).drop 16,
          some ⟨t.1, t.1 + 4, t.2.1, t.2.2⟩) := by
      rw [header_parse_entry t.1 t.2.1 t.2.2 _ ht.1 ht.2.1 ht.2.2.1 ht.2.2.2]
      rw [drop_prefix_append _ (by simp [u32_bytes])]
    have hstep := many_till_none_headers_step hp0
    rw [hstep]
    rw [drop_prefix_append _ (by simp [u32_bytes])]
    rw [ih]
    rfl

theorem write_bodies_infos_bounds : ∀ (mots : List RawMotion) (pos : Nat), 16 ≤ pos →
    ∀ t ∈ (write_bodies pos mots).2,
      16 ≤ t.1 ∧ t.1 + 4 ≤ pos + (write_bodies pos mots).1.length
        ∧ t.2.1 ≤ pos + (write_bodies pos mots).1.length
        ∧ t.2.2 ≤ pos + (write_bodies pos mots).1.length
  | [], pos, h16, t, ht => by simp [write_bodies] at ht
  | m :: mots, pos, h16, t, ht => by
    have hse := raw_write_setoff m pos
    have hbo := raw_write_boneoff m pos
    have hblen := raw_write_length m pos
    simp only [write_bodies, List.mem_cons] at ht
    rcases ht with rfl | ht2
    · refine ⟨h16, ?_, ?_, ?_⟩ <;>
        (simp only [write_bodies, List.length_append]; omega)
    · have ih := write_bodies_infos_bounds mots (pos + (RawMotion.write pos m).1.length)
        (by omega) t ht2
      refine ⟨ih.1, ?_, ?_, ?_⟩ <;>
        (simp only [write_bodies, List.length_append]; omega)

/-- Reading back the bodies written after an arbitrary even-length prefix,
through the headers the writer reported. -/
theorem read_motions_write : ∀ (mots : List RawMotion) (pre : List Nat) (pos : Nat),
    pre.length = pos → (∀ m ∈ mots, m.wf) → pos % 2 = 0 →
    (pre ++ (write_bodies pos mots).1).length % 4 = 0 →
    read_motions (pre ++ (write_bodies pos mots).1)
      ((write_bodies pos mots).2.map (fun t => ⟨t.1, t.1 + 4, t.2.1, t.2.2⟩))
      = some (.ok mots)
  | [], pre, pos, _, _, _, _ => rfl
  | m :: mots, pre, pos, hpos, hwf, hpe, hL4 => by
    subst hpos
    simp only [write_bodies, List.map_cons]
    have hparse := motion_parse_write m pre.length pre
      (write_bodies (pre.length + (RawMotion.write pre.length m).1.length) mots).1
      (hwf m (by simp)) rfl hpe (by
        simpa [write_bodies, List.append_assoc] using hL4)
    have hpre2 : (pre ++ (RawMotion.write pre.length m).1).length
        = pre.length + (RawMotion.write pre.length m).1.length := by
      simp
    have ih := read_motions_write mots (pre ++ (RawMotion.write pre.length m).1)
      (pre.length + (RawMotion.write pre.length m).1.length) hpre2
      (fun m' hm' => hwf m' (by simp [hm']))
      (by
        have := raw_write_body_even m pre.length hpe
        omega)
      (by
        simpa [write_bodies, List.append_assoc] using hL4)
    simp only [read_motions]
    simp only [hparse]
    rw [show (pre ++ ((RawMotion.write pre.length m).1
          ++ (write_bodies (pre.length + (RawMotion.write pre.length m).1.length) mots).1))
        = (pre ++ (RawMotion.write pre.length m).1)
          ++ (write_bodies (pre.length + (RawMotion.write pre.length m).1.length) mots).1 from by
      simp [List.append_assoc]]
    rw [ih]
    rfl

theorem write_bodies_infos_length : ∀ (ms : List RawMotion) (pos : Nat),
    (write_bodies pos ms).2.length = ms.length
  | [], _ => rfl
  | m :: ms, pos => by
    simp [write_bodies, write_bodies_infos_length ms]

/-- C1 as amended: writing a list of well-formed motions (track count below
2^14, u16/u32 fields in range, bone-id list holding the value zero exactly
once) whose serialized image has length divisible by 4 and below 2^32, then
parsing it back, returns exactly the original list. -/
theorem c1_roundtrip_amended (mots : List RawMotion)
    (hwf : ∀ m ∈ mots, m.wf)
    (hL4 : (RawMotion.write_all mots).length % 4 = 0)
    (hL32 : (RawMotion.write_all mots).length < 2 ^ 32) :
    RawMotion.read (RawMotion.write_all mots) = some (.ok mots) := by
  have hentry_len : ∀ t : Nat × Nat × Nat,
      (u32_bytes t.1 ++ u32_bytes (t.1 + 4) ++ u32_bytes t.2.1 ++ u32_bytes t.2.2).length
        = 16 := fun t => by simp [u32_bytes]
  have hinfos_len := write_bodies_infos_length mots ((1 + mots.length) * 16)
  have hhdr_len : (((write_bodies ((1 + mots.length) * 16) mots).2.map
      (fun t => u32_bytes t.1 ++ u32_bytes (t.1 + 4)
        ++ u32_bytes t.2.1 ++ u32_bytes t.2.2)).flatten).length
      = 16 * mots.length := by
    rw [flatten_map_length 16 _ hentry_len _, hinfos_len]
  have hfile : RawMotion.write_all mots
      = ((write_bodies ((1 + mots.length) * 16) mots).2.map
          (fun t => u32_bytes t.1 ++ u32_bytes (t.1 + 4)
            ++ u32_bytes t.2.1 ++ u32_bytes t.2.2)).flatten
        ++ (List.replicate 16 0 ++ (write_bodies ((1 + mots.length) * 16) mots).1) := by
    simp [RawMotion.write_all, List.append_assoc]
  have hLeq : (RawMotion.write_all mots).length
      = (1 + mots.length) * 16 + (write_bodies ((1 + mots.length) * 16) mots).1.length := by
    rw [hfile, List.length_append, List.length_append, hhdr_len, List.length_replicate]
    ring
  have hbounds := write_bodies_infos_bounds mots ((1 + mots.length) * 16) (by omega)
  unfold RawMotion.read
  rw [hfile]
  rw [headers_parse_chain (write_bodies ((1 + mots.length) * 16) mots).2
    (write_bodies ((1 + mots.length) * 16) mots).1 (fun t ht => by
    obtain ⟨h1, h2, h3, h4⟩ := hbounds t ht
    exact ⟨h1, by omega, by omega, by omega⟩)]
  have hpre : ((((write_bodies ((1 + mots.length) * 16) mots).2.map
      (fun t : Nat × Nat × Nat => u32_bytes t.1 ++ u32_bytes (t.1 + 4)
        ++ u32_bytes t.2.1 ++ u32_bytes t.2.2)).flatten)
      ++ List.replicate 16 0).length = (1 + mots.length) * 16 := by
    rw [List.length_append, hhdr_len, List.length_replicate]
    ring
  have hrm := read_motions_write mots
    ((((write_bodies ((1 + mots.length) * 16) mots).2.map
      (fun t : Nat × Nat × Nat => u32_bytes t.1 ++ u32_bytes (t.1 + 4)
        ++ u32_bytes t.2.1 ++ u32_bytes t.2.2)).flatten)
      ++ List.replicate 16 0)
    ((1 + mots.length) * 16) hpre hwf (by omega)
    (by
      rw [show ((((write_bodies ((1 + mots.length) * 16) mots).2.map
          (fun t : Nat × Nat × Nat => u32_bytes t.1 ++ u32_bytes (t.1 + 4)
            ++ u32_bytes t.2.1 ++ u32_bytes t.2.2)).flatten)
          ++ List.replicate 16 0) ++ (write_bodies ((1 + mots.length) * 16) mots).1
        = RawMotion.write_all mots from by
        rw [hfile]
        simp [List.append_assoc]]
      exact hL4)
  rw [show (((write_bodies ((1 + mots.length) * 16) mots).2.map
      (fun t : Nat × Nat × Nat => u32_bytes t.1 ++ u32_bytes (t.1 + 4)
        ++ u32_bytes t.2.1 ++ u32_bytes t.2.2)).flatten)
      ++ (List.replicate 16 0 ++ (write_bodies ((1 + mots.length) * 16) mots).1)
    = ((((write_bodies ((1 + mots.length) * 16) mots).2.map
      (fun t : Nat × Nat × Nat => u32_bytes t.1 ++ u32_bytes (t.1 + 4)
        ++ u32_bytes t.2.1 ++ u32_bytes t.2.2)).flatten)
      ++ List.replicate 16 0) ++ (write_bodies ((1 + mots.length) * 16) mots).1 from by
    simp [List.append_assoc]]
  exact hrm

/-- Witness for the amended C1: a single well-formed motion (one Pose track,
bones `[3, 0]`, frames 9) whose 48-byte image satisfies the alignment and size
conditions round-trips exactly. -/
theorem c1_roundtrip_amended_witness :
    RawMotion.read (RawMotion.write_all [⟨[.Pose 7], [3, 0], 9⟩])
      = some (.ok [⟨[.Pose 7], [3, 0], 9⟩]) :=
  c1_roundtrip_amended [⟨[.Pose 7], [3, 0], 9⟩] (by decide) (by decide) (by decide)

end Mot
